import Mathlib

/-!
# Registry statistics (`registry/storage/stats.go`)

A shallow embedding of `Stats`, the read-only mark-and-sweep pass over a
container-image registry, followed by the properties of its report.

The store is external to the file under study.  It is represented by the
answers its operations give: every enumerator is the list of items it hands to
its callback, in order, together with the error (if any) it returns once the
callback has accepted all of them; an enumerator stops at the first error its
callback returns and returns that error unchanged.
-/

namespace Storage

/-! ## Data model -/

/-- A content digest; `digest.Digest` is a Go string type. -/
abbrev Digest := String

/-- A Go `error` value: its text, and whether its dynamic type is
`driver.PathNotFoundError` (the only thing `Stats` ever asks of an error
besides its text). -/
structure Err where
  pathNotFound : Bool
  text : String
deriving DecidableEq, Repr

/-- The error built by `fmt.Errorf`: never a `driver.PathNotFoundError`. -/
def errorf (text : String) : Err :=
  { pathNotFound := false, text := text }

/-- A reference declared by a manifest body (`distribution.Descriptor`). -/
structure Descriptor where
  Digest : Storage.Digest
  Size : Int
deriving DecidableEq, Repr

/-- One repository of the registry, as seen through the operations `Stats`
performs on it.  `withName`, `repository` and `manifestService` are the errors
(if any) of `reference.WithName`, `registry.Repository` and
`repository.Manifests`; `isManifestEnumerator` is the outcome of the type
assertion on the manifest service; `tagsAll` is the pair returned by
`tagsService.All`; `manifests` are the digests the manifest enumerator hands to
its callback and `manifestsEnd` the error it returns after the last of them;
`lookup` is `Tags.Lookup` and `get` is `manifestService.Get` followed by
`References`. -/
structure Repository where
  name : String
  withName : Option Err
  repository : Option Err
  manifestService : Option Err
  isManifestEnumerator : Bool
  tagsAll : List String × Option Err
  manifests : List Digest
  manifestsEnd : Option Err
  lookup : Digest → Except Err (List String)
  get : Digest → Except Err (List Descriptor)

/-- The registry (`distribution.Namespace`) as seen by `Stats` and `Print`:
the outcome of the type assertion to `RepositoryEnumerator`, the repositories
the enumerator visits and the error it returns after the last, the blob
population visited by `Blobs().Enumerate` with its final error, and
`BlobStatter().Stat` reduced to the size it reports. -/
structure Namespace where
  isRepositoryEnumerator : Bool
  repos : List Repository
  reposEnd : Option Err
  blobs : List Digest
  blobsEnd : Option Err
  stat : Digest → Except Err Int

/-- Assignment `m[k] = v` on a Go map with string keys, kept as an
association list with one entry per key. -/
def mapSet {α : Type} : List (String × α) → String → α → List (String × α)
  | [], k, v => [(k, v)]
  | (k', v') :: rest, k, v =>
    if k' = k then (k', v) :: rest else (k', v') :: mapSet rest k v

/-- Reading `m[k]` with the presence flag: `none` when the key has no entry. -/
def mapGet {α : Type} : List (String × α) → String → Option α
  | [], _ => none
  | (k', v') :: rest, k => if k' = k then some v' else mapGet rest k

/-- A repository's tag table, `map[string]*digest.Digest`; the value `none`
is the nil pointer. -/
abbrev TagTable := List (String × Option Digest)

/-- A repository's untagged map, `map[*digest.Digest]bool`.  Its keys are the
addresses of the callback's parameter, fresh at every call, so that every
visited manifest adds an entry of its own: the map is the list of the entries
in the order they were added. -/
abbrev UntaggedMap := List (Digest × Bool)

/-- The order in which a `range` over an untagged map yields its entries, which
Go leaves unspecified: some rearrangement of the entries. -/
structure MapOrder where
  range : UntaggedMap → UntaggedMap
  perm : ∀ l, (range l).Perm l

/-- The iteration order that yields the entries as they were added. -/
def MapOrder.insertion : MapOrder :=
  { range := fun l => l, perm := fun l => List.Perm.refl l }

/-- The iteration order that yields the entries last added first. -/
def MapOrder.reversed : MapOrder :=
  { range := fun l => l.reverse, perm := fun l => List.reverse_perm l }

/-- The report (`StatsResults`).  `Untagged` and `Tags` are keyed by repository
handle; `registry.Repository` builds a new handle at every call, so a handle is
identified with the position of its repository in the enumeration.  The
unexported `registry` field is the store itself and is passed separately. -/
structure StatsResults where
  Untagged : List (Nat × UntaggedMap)
  OrphanBlobs : List Digest
  Tags : List (Nat × TagTable)
deriving DecidableEq, Repr

/-- What the marking closure works on: the two maps of the report and the
`markSet` local of `Stats` (a set, kept as a duplicate-free list). -/
structure MarkState where
  Untagged : List (Nat × UntaggedMap)
  Tags : List (Nat × TagTable)
  markSet : List Digest
deriving DecidableEq, Repr

/-- The maps the closure fills while it visits one repository:
`results.Tags[repository]`, `results.Untagged[repository]` and `markSet`. -/
structure RepoMaps where
  tags : TagTable
  untagged : UntaggedMap
  markSet : List Digest
deriving DecidableEq, Repr

/-! ## `Stats` -/

/-- The callback handed to the manifest enumerator (lines 141-164). -/
def ingestManifest (r : Repository) (dgst : Digest) (m : RepoMaps) : RepoMaps × Option Err :=
  match r.lookup dgst with
  | .error e =>
    (m, some (errorf ("failed to retrieve tags for digest " ++ dgst ++ ": " ++ e.text)))
  | .ok tags =>
    if tags.length = 0 then
      ({ m with untagged := m.untagged ++ [(dgst, true)] }, none)
    else
      ({ tags := tags.foldl (fun t tag => mapSet t tag (some dgst)) m.tags,
         untagged := m.untagged ++ [(dgst, false)],
         markSet := m.markSet.insert dgst }, none)

/-- The run of `manifestEnumerator.Enumerate` on the callback: the digests are
ingested in order up to the first error of the callback; when there is none the
enumerator's own final error is returned. -/
def enumerateManifests (r : Repository) : List Digest → RepoMaps → RepoMaps × Option Err
  | [], m => (m, r.manifestsEnd)
  | d :: ds, m =>
    match ingestManifest r d m with
    | (m', some e) => (m', some e)
    | (m', none) => enumerateManifests r ds m'

/-- The loop over `results.Untagged[repository]` (lines 177-192): the body of
every entry not flagged untagged is fetched and its references are marked; the
first failed fetch ends the loop with an error. -/
def markReferences (r : Repository) : UntaggedMap → List Digest → List Digest × Option Err
  | [], ms => (ms, none)
  | (dgst, untagged) :: rest, ms =>
    if untagged then markReferences r rest ms
    else
      match r.get dgst with
      | .error e =>
        (ms, some (errorf ("failed to retrieve manifest for digest " ++ dgst ++ ": " ++ e.text)))
      | .ok descriptors =>
        markReferences r rest (descriptors.foldl (fun s d => s.insert d.Digest) ms)

/-- Storing the maps of the repository with handle `h` into the state. -/
def MarkState.record (st : MarkState) (h : Nat) (m : RepoMaps) : MarkState :=
  { Untagged := st.Untagged ++ [(h, m.untagged)],
    Tags := st.Tags ++ [(h, m.tags)],
    markSet := m.markSet }

/-- The tag table after lines 134-139: every listed tag bound to nil.  The
error of `tagsService.All` is assigned and then overwritten unread. -/
def listedTags (r : Repository) : TagTable :=
  r.tagsAll.1.foldl (fun t value => mapSet t value none) []

/-- Whether the closure takes the `driver.PathNotFoundError` exit (lines 166-175). -/
def isPathNotFound : Option Err → Bool
  | some e => e.pathNotFound
  | none => false

/-- The second half of the closure (lines 134-194), once the repository `r`
with handle `h` has been opened and its two maps created. -/
def markRepository (ord : MapOrder) (h : Nat) (r : Repository) (st : MarkState) :
    MarkState × Option Err :=
  let en := enumerateManifests r r.manifests
    { tags := listedTags r, untagged := [], markSet := st.markSet }
  if isPathNotFound en.2 = true then (st.record h en.1, none)
  else
    let mk := markReferences r (ord.range en.1.untagged) en.1.markSet
    match mk.2 with
    | some e => (st.record h { en.1 with markSet := mk.1 }, some e)
    | none => (st.record h { en.1 with markSet := mk.1 }, en.2)

/-- The closure handed to the repository enumerator (lines 110-195), for the
repository `r` whose handle is `h`. -/
def visitRepo (ord : MapOrder) (h : Nat) (r : Repository) (st : MarkState) :
    MarkState × Option Err :=
  match r.withName with
  | some e => (st, some (errorf ("failed to parse repo name " ++ r.name ++ ": " ++ e.text)))
  | none =>
    match r.repository with
    | some e => (st, some (errorf ("failed to construct repository: " ++ e.text)))
    | none =>
      match r.manifestService with
      | some e =>
        (st.record h { tags := [], untagged := [], markSet := st.markSet },
          some (errorf ("failed to construct manifest service: " ++ e.text)))
      | none =>
        if r.isManifestEnumerator = false then
          (st.record h { tags := [], untagged := [], markSet := st.markSet },
            some (errorf "unable to convert ManifestService into ManifestEnumerator"))
        else markRepository ord h r st

/-- The run of `repositoryEnumerator.Enumerate` on the closure; `h` is the
handle of the next repository and `fin` the enumerator's own final error. -/
def enumerateRepos (ord : MapOrder) (fin : Option Err) :
    List Repository → Nat → MarkState → MarkState × Option Err
  | [], _, st => (st, fin)
  | r :: rs, h, st =>
    match visitRepo ord h r st with
    | (st', some e) => (st', some e)
    | (st', none) => enumerateRepos ord fin rs (h + 1) st'

/-- The mark phase (lines 103-195): the state it leaves and the error it ends with. -/
def markPhase (ord : MapOrder) (registry : Namespace) : MarkState × Option Err :=
  enumerateRepos ord registry.reposEnd registry.repos 0
    { Untagged := [], Tags := [], markSet := [] }

/-- The live set at sweep time. -/
def liveSet (ord : MapOrder) (registry : Namespace) : List Digest :=
  (markPhase ord registry).1.markSet

/-- The sweep (lines 201-210): the callback appends every visited digest that
is not in `markSet`, and never fails. -/
def sweep (markSet : List Digest) (blobs : List Digest) : List Digest :=
  blobs.foldl (fun orphans dgst => if dgst ∈ markSet then orphans else orphans ++ [dgst]) []

/-- The function `Stats`: the pair it returns, a nil report being `none` and a
nil error being `none`.  Its `storageDriver` and `opts` parameters are unused;
`ord` is the order in which the runtime ranges over an untagged map. -/
def Stats (ord : MapOrder) (registry : Namespace) : Option StatsResults × Option Err :=
  if registry.isRepositoryEnumerator = false then
    (none, some (errorf "unable to convert Namespace to RepositoryEnumerator"))
  else
    let marked := markPhase ord registry
    match marked.2 with
    | some e => (none, some (errorf ("failed to mark: " ++ e.text)))
    | none =>
      match registry.blobsEnd with
      | some e => (none, some (errorf ("error enumerating blobs: " ++ e.text)))
      | none =>
        (some { Untagged := marked.1.Untagged,
                OrphanBlobs := sweep marked.1.markSet registry.blobs,
                Tags := marked.1.Tags }, none)

/-! ## Sample stores -/

/-- A repository on which no operation fails: its listed tags, its manifests in
enumeration order, and for each manifest the tags resolving to it and the
digests it references. -/
def sampleRepo (name : String) (tags : List String)
    (manifests : List (Digest × List String × List Digest)) : Repository :=
  { name := name, withName := none, repository := none, manifestService := none,
    isManifestEnumerator := true, tagsAll := (tags, none),
    manifests := manifests.map Prod.fst, manifestsEnd := none,
    lookup := fun d => .ok (((manifests.filter (fun m => m.1 = d)).map (fun m => m.2.1)).flatten),
    get := fun d => .ok ((((manifests.filter (fun m => m.1 = d)).map (fun m => m.2.2)).flatten).map
      (fun x => { Digest := x, Size := 1 })) }

/-- A registry on which no registry-level operation fails. -/
def sampleRegistry (repos : List Repository) (blobs : List Digest) : Namespace :=
  { isRepositoryEnumerator := true, repos := repos, reposEnd := none,
    blobs := blobs, blobsEnd := none, stat := fun _ => .ok 1 }

/-- A registry with one repository: `m1` is tagged `v1` and references `b1`
and `b2`; `m2` has no tag and references `b3`; the tag `v2` resolves to no
enumerated manifest; the blob `x` is referenced by nothing. -/
def registryA : Namespace :=
  sampleRegistry
    [sampleRepo "a" ["v1", "v2"] [("m1", ["v1"], ["b1", "b2"]), ("m2", [], ["b3"])]]
    ["b1", "b2", "b3", "m1", "m2", "x"]

/-- A registry with one repository whose only manifest, `m2`, has no tag; the
manifest and the blob it references are both in the blob population. -/
def registryB : Namespace :=
  sampleRegistry [sampleRepo "a" [] [("m2", [], ["b3"])]] ["m2", "b3"]

/-- A repository whose manifest enumeration visits `m1`, tagged `v1`, and then
fails with path-not-found; its tag listing returns `v1` and `v2`. -/
def repoMissing : Repository :=
  { sampleRepo "gone" ["v1", "v2"] [("m1", ["v1"], ["b1"])] with
    manifestsEnd := some { pathNotFound := true, text := "path not found" } }

/-- A registry of three repositories, the second of which is `repoMissing`. -/
def registryC : Namespace :=
  sampleRegistry
    ([sampleRepo "a" ["v1", "v2"] [("m1", ["v1"], ["b1", "b2"]), ("m2", [], ["b3"])]] ++
      repoMissing :: [sampleRepo "c" ["w"] [("m3", ["w"], ["b4"])]])
    ["b1", "b2", "b3", "b4"]

/-- A registry whose only repository is `repoMissing`. -/
def registryD : Namespace :=
  sampleRegistry [repoMissing] ["b1"]

/-- A registry whose only repository has a manifest `m1`, tagged `v1`, whose
body cannot be fetched. -/
def registryF : Namespace :=
  sampleRegistry
    [{ sampleRepo "a" ["v1"] [("m1", ["v1"], ["b1"])] with
       get := fun _ => .error { pathNotFound := false, text := "manifest unknown" } }]
    ["b1"]

/-- The repository `alpha`, whose manifest enumeration visits `m1` and then
fails with an error that is not path-not-found. -/
def repoAlpha : Repository :=
  { sampleRepo "alpha" ["v1"] [("m1", ["v1"], ["b1"])] with
    manifestsEnd := some { pathNotFound := false, text := "disk failure" } }

/-- A registry whose only repository is `repoAlpha`. -/
def registryG : Namespace :=
  sampleRegistry [repoAlpha] ["b1"]

/-- A registry whose only repository, `beta`, fails the reverse lookup of its
manifest `m1`. -/
def registryH : Namespace :=
  sampleRegistry
    [{ sampleRepo "beta" ["v1"] [("m1", ["v1"], ["b1"])] with
       lookup := fun _ => .error { pathNotFound := false, text := "link unreadable" } }]
    ["b1"]

/-- A registry on which marking succeeds and the blob enumerator fails. -/
def registryI : Namespace :=
  { registryA with blobsEnd := some { pathNotFound := false, text := "listing failed" } }

/-- A registry whose only repository has an untagged manifest `m2` whose body
cannot be fetched. -/
def registryJ : Namespace :=
  sampleRegistry
    [{ sampleRepo "a" [] [("m2", [], ["b3"])] with
       get := fun _ => .error { pathNotFound := false, text := "manifest unknown" } }]
    ["b3"]

/-- A registry of two repositories: the tagged manifest `m1` of `a` references
`b1` and `x`, the tagged manifest `m3` of `c` references `b4`. -/
def registryK : Namespace :=
  sampleRegistry
    ([sampleRepo "a" ["v1"] [("m1", ["v1"], ["b1", "x"])]] ++
      sampleRepo "c" ["w"] [("m3", ["w"], ["b4"])] :: [])
    ["b1", "b4", "x", "y"]

/-- A registry with one repository, two tags and two manifests of three layers each. -/
def registryL : Namespace :=
  sampleRegistry
    [sampleRepo "a" ["v1", "v2"]
      [("m1", ["v1"], ["a1", "a2", "a3"]), ("m2", ["v2"], ["b1", "b2", "b3"])]]
    ["m1", "m2", "a1", "a2", "a3", "b1", "b2", "b3"]

/-! ## Vocabulary of the statements -/

/-- Reading `m[repository]` on a map keyed by repository handle. -/
def handleGet {α : Type} : List (Nat × α) → Nat → Option α
  | [], _ => none
  | (k, v) :: rest, h => if k = h then some v else handleGet rest h

/-- The tags the reverse lookup of `d` returns (none when the lookup fails). -/
def Repository.tagsOf (r : Repository) (d : Digest) : List String :=
  match r.lookup d with
  | .ok tags => tags
  | .error _ => []

/-- The digests of the references declared by the body of `d` (none when the
body cannot be fetched). -/
def Repository.refsOf (r : Repository) (d : Digest) : List Digest :=
  match r.get d with
  | .ok descriptors => descriptors.map Descriptor.Digest
  | .error _ => []

/-- Whether the reverse lookup of `d` fails. -/
def Repository.lookupFails (r : Repository) (d : Digest) : Bool :=
  match r.lookup d with
  | .ok _ => false
  | .error _ => true

/-- Whether fetching the body of `d` fails. -/
def Repository.getFails (r : Repository) (d : Digest) : Bool :=
  match r.get d with
  | .ok _ => false
  | .error _ => true

/-- The repository can be opened: the name parses, the handle and the manifest
service are built, and the service can enumerate. -/
def Repository.opens (r : Repository) : Prop :=
  r.withName = none ∧ r.repository = none ∧ r.manifestService = none ∧
    r.isManifestEnumerator = true

/-- No reverse lookup of an enumerated manifest fails. -/
def Repository.lookupsOk (r : Repository) : Prop :=
  ∀ d ∈ r.manifests, r.lookupFails d = false

/-- No fetch of the body of an enumerated manifest with a tag fails. -/
def Repository.getsOk (r : Repository) : Prop :=
  ∀ d ∈ r.manifests, r.tagsOf d ≠ [] → r.getFails d = false

/-- No operation that `Stats` performs on the repository returns an error. -/
def Repository.noFail (r : Repository) : Prop :=
  r.opens ∧ r.tagsAll.2 = none ∧ r.lookupsOk ∧ r.manifestsEnd = none ∧ r.getsOk

/-- The manifest enumeration of the repository fails with the path-not-found
condition and no other operation on it fails. -/
def Repository.missingMetadata (r : Repository) : Prop :=
  r.opens ∧ r.tagsAll.2 = none ∧ r.lookupsOk ∧ isPathNotFound r.manifestsEnd = true

/-- The manifest enumeration of the repository fails with an error that is not
path-not-found: a reverse lookup inside it fails, or the enumerator itself
ends with such an error. -/
def Repository.enumerationBreaks (r : Repository) : Prop :=
  (∃ d ∈ r.manifests, r.lookupFails d = true) ∨
    (∃ e, r.manifestsEnd = some e ∧ e.pathNotFound = false)

/-- No operation that `Stats` performs on the registry returns an error. -/
def Namespace.noFail (registry : Namespace) : Prop :=
  registry.isRepositoryEnumerator = true ∧ registry.reposEnd = none ∧
    registry.blobsEnd = none ∧ ∀ r ∈ registry.repos, r.noFail

instance (r : Repository) : Decidable r.opens := by
  unfold Repository.opens; infer_instance

instance (r : Repository) : Decidable r.lookupsOk := by
  unfold Repository.lookupsOk; infer_instance

instance (r : Repository) : Decidable r.getsOk := by
  unfold Repository.getsOk; infer_instance

instance (r : Repository) : Decidable r.noFail := by
  unfold Repository.noFail; infer_instance

instance (r : Repository) : Decidable r.missingMetadata := by
  unfold Repository.missingMetadata; infer_instance

instance (registry : Namespace) : Decidable registry.noFail := by
  unfold Namespace.noFail; infer_instance

/-- The untagged map a visit of `r` builds when no reverse lookup fails: one
entry per enumerated manifest, flagged untagged when its lookup is empty. -/
def Repository.untaggedMap (r : Repository) : UntaggedMap :=
  r.manifests.map (fun d => (d, decide (r.tagsOf d = [])))

/-- The effect of one enumerated manifest on the tag table. -/
def Repository.bindTags (r : Repository) (t : TagTable) (d : Digest) : TagTable :=
  (r.tagsOf d).foldl (fun t tag => mapSet t tag (some d)) t

/-- The tag table a visit of `r` builds when no reverse lookup fails. -/
def Repository.tagTable (r : Repository) : TagTable :=
  r.manifests.foldl r.bindTags (listedTags r)

/-- The digest of the last manifest, in enumeration order, whose reverse lookup
contains the tag `t`; `none` when there is no such manifest. -/
def Repository.lastWriter (r : Repository) (t : String) : Option Digest :=
  (r.manifests.filter (fun d => decide (t ∈ r.tagsOf d))).getLast?

/-- The entries `(h, f r₀), (h + 1, f r₁), ...` of a map keyed by handle. -/
def handlesFrom {α β : Type} (f : α → β) : Nat → List α → List (Nat × β)
  | _, [] => []
  | h, a :: rest => (h, f a) :: handlesFrom f (h + 1) rest

/-- The digest `x` is marked on account of repository `r`: it is an enumerated
manifest of `r` with a tag, or a reference declared by such a manifest. -/
def Repository.marks (r : Repository) (x : Digest) : Prop :=
  ∃ d ∈ r.manifests, r.tagsOf d ≠ [] ∧ (x = d ∨ x ∈ r.refsOf d)

/-- The effect of one enumerated manifest on the live set. -/
def Repository.markTagged (r : Repository) (s : List Digest) (d : Digest) : List Digest :=
  if r.tagsOf d = [] then s else s.insert d

/-- The maps a complete enumeration of the digests `ds` leaves, starting from `m`,
when no reverse lookup fails. -/
def Repository.ingested (r : Repository) (ds : List Digest) (m : RepoMaps) : RepoMaps :=
  { tags := ds.foldl r.bindTags m.tags,
    untagged := m.untagged ++ ds.map (fun d => (d, decide (r.tagsOf d = []))),
    markSet := ds.foldl r.markTagged m.markSet }

/-- The visit of the repository ends without an error: it opens, no reverse
lookup fails, and the enumeration either ends with path-not-found or ends
normally with every tagged body fetched. -/
def Repository.visitOk (r : Repository) : Prop :=
  r.opens ∧ r.lookupsOk ∧
    (isPathNotFound r.manifestsEnd = true ∨ (r.manifestsEnd = none ∧ r.getsOk))

instance (r : Repository) : Decidable r.visitOk := by
  unfold Repository.visitOk; infer_instance

/-- What a visit of `r` that ends without an error adds to the live set: the
enumerated manifests with a tag and, unless the enumeration ended with
path-not-found, the references their bodies declare. -/
def Repository.marked (r : Repository) (x : Digest) : Prop :=
  (x ∈ r.manifests ∧ r.tagsOf x ≠ []) ∨
    (r.manifestsEnd = none ∧ ∃ d ∈ r.manifests, r.tagsOf d ≠ [] ∧ x ∈ r.refsOf d)

/-- The run returns a report: the registry can enumerate its repositories, the
repository enumerator and the blob enumerator end without an error, and the
visit of every repository ends without an error. -/
def Namespace.runs (registry : Namespace) : Prop :=
  registry.isRepositoryEnumerator = true ∧ registry.reposEnd = none ∧
    (∀ r ∈ registry.repos, r.visitOk) ∧ registry.blobsEnd = none

instance (registry : Namespace) : Decidable registry.runs := by
  unfold Namespace.runs; infer_instance

/-- The report of a run that returns one. -/
def Namespace.report (ord : MapOrder) (registry : Namespace) : StatsResults :=
  { Untagged := handlesFrom Repository.untaggedMap 0 registry.repos,
    OrphanBlobs := sweep (liveSet ord registry) registry.blobs,
    Tags := handlesFrom Repository.tagTable 0 registry.repos }

/-- The value an integer expression has once it is stored in an `int64`. -/
def wrap64 (x : Int) : Int :=
  (x + 2 ^ 63) % 2 ^ 64 - 2 ^ 63

/-- The rendering `fmt.Sprintf("%.1f", float64(b)/float64(div))` as a function
of `b` and `div`: the conversion to `float64`, the division and the rounding to
one decimal are those of the Go runtime, which `fmtFloat1` below spells out. -/
abbrev FloatFmt := Int → Int → String

/-- The scaling loop of `byteCountBinary` (lines 223-227),
`for n := b / unit; n >= unit; n /= unit { div *= unit; exp++ }`,
from the current `n`, `div` and `exp`; it returns the final `div` and `exp`. -/
def scaleLoop (n div : Int) (exp : Nat) : Int × Nat :=
  if n ≥ 1024 then scaleLoop (Int.tdiv n 1024) (wrap64 (div * 1024)) (exp + 1)
  else (div, exp)
termination_by n.toNat
decreasing_by
  rw [Int.tdiv_eq_ediv (by omega) (by omega)]
  omega

/-- The function `byteCountBinary` on the `int64` value `b`; `none` is the
run-time panic of an index out of the range of `"KMGTPE"`. -/
def byteCountBinary (fmtF : FloatFmt) (b : Int) : Option String :=
  if b < 1024 then some (toString b ++ " B")
  else
    let scaled := scaleLoop (Int.tdiv b 1024) 1024 0
    match "KMGTPE".toList[scaled.2]? with
    | none => none
    | some c => some (fmtF b scaled.1 ++ " " ++ String.singleton c ++ "iB")

/-- The function `getOrphanDigestSize`: the size `Stat` reports, 0 when it fails. -/
def getOrphanDigestSize (registry : Namespace) (d : Digest) : Int :=
  match registry.stat d with
  | .error _ => 0
  | .ok size => size

/-- What a run of `Print` has done: the lines written to standard output, the
digests handed to `ms.Get`, and whether the run ended in a run-time panic
instead of returning. -/
structure Printed where
  lines : List String
  fetched : List Digest
  panicked : Bool
deriving DecidableEq, Repr

/-- Writing one line. -/
def Printed.say (line : String) : Printed :=
  { lines := [line], fetched := [], panicked := false }

/-- Sequencing: what follows a panic does not run. -/
def Printed.andThen (a b : Printed) : Printed :=
  if a.panicked = true then a
  else { lines := a.lines ++ b.lines, fetched := a.fetched ++ b.fetched, panicked := b.panicked }

/-- A loop whose body is `f`, over the items in the order given. -/
def printEach {α : Type} (f : α → Printed) : List α → Printed
  | [] => { lines := [], fetched := [], panicked := false }
  | a :: rest => (f a).andThen (printEach f rest)

/-- The fetch-and-size part shared by the two loops of `Print` (lines 43-59 and
69-85) for the manifest `d` of the repository `r`; `label` is the line without
its size.  The error of `repo.Manifests` is dropped and a failed call leaves a
nil service, on which `Get` panics.  A failed `Get` has its error printed and
returns a nil manifest, so the call of `References` that follows panics before
the line of the entry is written. -/
def printSized (fmtF : FloatFmt) (r : Repository) (d : Digest) (label : String) : Printed :=
  match r.manifestService with
  | some _ => { lines := [], fetched := [], panicked := true }
  | none =>
    match r.get d with
    | .error e => { lines := [e.text], fetched := [d], panicked := true }
    | .ok descriptors =>
      match byteCountBinary fmtF
          (descriptors.foldl (fun size ref => wrap64 (size + ref.Size)) 0) with
      | none => { lines := [], fetched := [d], panicked := true }
      | some size => { lines := [label ++ ", size: " ++ size], fetched := [d], panicked := false }

/-- The body of the loop over a repository's tag table (lines 39-61). -/
def printTag (fmtF : FloatFmt) (r : Repository) (entry : String × Option Digest) : Printed :=
  match entry.2 with
  | none => Printed.say ("      " ++ r.name ++ ":" ++ entry.1 ++ "@" ++ "missing")
  | some d => printSized fmtF r d ("      " ++ r.name ++ ":" ++ entry.1 ++ "@" ++ d)

/-- The body of the loop over a repository's untagged map (lines 64-87). -/
def printUntagged (fmtF : FloatFmt) (r : Repository) (entry : Digest × Bool) : Printed :=
  if entry.2 = false then { lines := [], fetched := [], panicked := false }
  else printSized fmtF r entry.1 ("      " ++ r.name ++ "@" ++ entry.1)

/-- The body of the loop over the orphan list (lines 91-93). -/
def printOrphan (fmtF : FloatFmt) (registry : Namespace) (d : Digest) : Printed :=
  match byteCountBinary fmtF (getOrphanDigestSize registry d) with
  | none => { lines := [], fetched := [], panicked := true }
  | some size => Printed.say ("  " ++ d ++ ", size: " ++ size)

/-- The orders in which the three `range` loops of `Print` yield the entries of
their maps, each some rearrangement of the entries. -/
structure PrintOrder where
  repos : List (Nat × TagTable) → List (Nat × TagTable)
  repos_perm : ∀ l, (repos l).Perm l
  tags : TagTable → TagTable
  tags_perm : ∀ l, (tags l).Perm l
  untagged : MapOrder

/-- The orders that yield the entries of every map as they were added. -/
def PrintOrder.insertion : PrintOrder :=
  { repos := fun l => l, repos_perm := fun l => List.Perm.refl l,
    tags := fun l => l, tags_perm := fun l => List.Perm.refl l,
    untagged := MapOrder.insertion }

/-- The body of the loop over `r.Tags` (lines 35-88) for the entry of the
repository with handle `h`.  A handle is a repository of the registry; a key
that is none contributes nothing. -/
def printRepo (po : PrintOrder) (fmtF : FloatFmt) (registry : Namespace) (rep : StatsResults)
    (entry : Nat × TagTable) : Printed :=
  match registry.repos[entry.1]? with
  | none => { lines := [], fetched := [], panicked := false }
  | some r =>
    (Printed.say ("  " ++ r.name ++ ":")).andThen
      ((Printed.say "    tags:").andThen
        ((printEach (printTag fmtF r) (po.tags entry.2)).andThen
          ((Printed.say "    untagged:").andThen
            (printEach (printUntagged fmtF r)
              (po.untagged.range ((handleGet rep.Untagged entry.1).getD []))))))

/-- The method `Print` of the report `rep`, whose `registry` field is the store
`registry`. -/
def Print (po : PrintOrder) (fmtF : FloatFmt) (registry : Namespace) (rep : StatsResults) :
    Printed :=
  (Printed.say "repos:").andThen
    ((printEach (printRepo po fmtF registry rep) (po.repos rep.Tags)).andThen
      ((Printed.say "orphan:").andThen
        (printEach (printOrphan fmtF registry) rep.OrphanBlobs)))

/-- The fraction `num/den` rounded to the nearest natural number, a tie going
to the even neighbour. -/
def roundHalfEven (num den : Nat) : Nat :=
  if 2 * (num % den) < den then num / den
  else if den < 2 * (num % den) then num / den + 1
  else if (num / den) % 2 = 0 then num / den
  else num / den + 1

/-- The number of binary digits of `n`, counted with at most `fuel` halvings. -/
def bitsFuel : Nat → Nat → Nat
  | 0, _ => 0
  | fuel + 1, n => if n = 0 then 0 else bitsFuel fuel (n / 2) + 1

/-- The number of binary digits of `n`. -/
def bitLength (n : Nat) : Nat :=
  bitsFuel n n

/-- The magnitude of `float64(b)` for an integer `b` of magnitude `n`: the
conversion keeps 53 significant bits and rounds to nearest, ties to even. -/
def roundTo53 (n : Nat) : Nat :=
  if n < 2 ^ 53 then n
  else roundHalfEven n (2 ^ (bitLength n - 53)) * 2 ^ (bitLength n - 53)

/-- Whether `n` is a power of two. -/
def isPowerOfTwo (n : Nat) : Bool :=
  decide (n ≠ 0 ∧ n = 2 ^ (bitLength n - 1))

/-- The integer part of the binary logarithm of `x/y`. -/
def floorLog2 (x y : Nat) : Int :=
  let d : Int := (bitLength x : Int) - (bitLength y : Int)
  if y * 2 ^ d.toNat ≤ x * 2 ^ (-d).toNat then d else d - 1

/-- The `float64` quotient of the `float64` magnitudes `x` and `y`, `y` not 0,
as a fraction `(numerator, denominator)`.  Dividing by a power of two only
changes the exponent and is exact; any other quotient is rounded to 53
significant bits, to nearest, ties to even. -/
def float64Quotient (x y : Nat) : Nat × Nat :=
  if isPowerOfTwo y = true then (x, y)
  else
    let s : Int := 52 - floorLog2 x y
    (roundHalfEven (x * 2 ^ s.toNat) (y * 2 ^ (-s).toNat) * 2 ^ (-s).toNat, 2 ^ s.toNat)

/-- The Go runtime's `fmt.Sprintf("%.1f", float64(b)/float64(div))` for `int64`
values `b` and `div`: both are converted to `float64`, the quotient is taken in
`float64`, and `%.1f` writes its exact value rounded to one decimal, to nearest,
ties to even. -/
def fmtFloat1 : FloatFmt :=
  fun b div =>
    if div = 0 then
      if b = 0 then "NaN" else if b < 0 then "-Inf" else "+Inf"
    else
      (if (decide (b < 0) != decide (div < 0)) = true then "-" else "")
        ++ toString
          (roundHalfEven
            (10 * (float64Quotient (roundTo53 b.natAbs) (roundTo53 div.natAbs)).1)
            (float64Quotient (roundTo53 b.natAbs) (roundTo53 div.natAbs)).2 / 10)
        ++ "."
        ++ toString
          (roundHalfEven
            (10 * (float64Quotient (roundTo53 b.natAbs) (roundTo53 div.natAbs)).1)
            (float64Quotient (roundTo53 b.natAbs) (roundTo53 div.natAbs)).2 % 10)

/-- The repository in which the body of the manifest `d` declares the one more
reference `x`. -/
def Repository.addReference (r : Repository) (d : Digest) (x : Descriptor) : Repository :=
  { r with
    get := fun d' =>
      if d' = d then
        match r.get d' with
        | .ok descriptors => .ok (descriptors ++ [x])
        | .error e => .error e
      else r.get d' }

/-! ## Maps and the sweep -/

theorem mapGet_mapSet {α : Type} (m : List (String × α)) (k k' : String) (v : α) :
    mapGet (mapSet m k v) k' = if k = k' then some v else mapGet m k' := by
  induction m with
  | nil => simp [mapSet, mapGet]
  | cons p rest ih =>
    obtain ⟨a, b⟩ := p
    unfold mapSet
    by_cases hak : a = k
    · rw [if_pos hak]
      subst hak
      by_cases hk : a = k' <;> simp [mapGet, hk]
    · rw [if_neg hak]
      unfold mapGet
      by_cases hak' : a = k'
      · have hk : ¬ k = k' := fun h => hak (hak'.trans h.symm)
        rw [if_pos hak', if_pos hak', if_neg hk]
      · rw [if_neg hak', if_neg hak', ih]

theorem mapGet_foldl_mapSet {α : Type} (ks : List String) (v : α) (m : List (String × α))
    (k : String) :
    mapGet (ks.foldl (fun t tag => mapSet t tag v) m) k
      = if k ∈ ks then some v else mapGet m k := by
  induction ks generalizing m with
  | nil => simp
  | cons a rest ih =>
    simp only [List.foldl_cons, ih, mapGet_mapSet, List.mem_cons]
    by_cases h1 : k ∈ rest
    · simp [h1]
    · by_cases h2 : a = k
      · subst h2; simp
      · have h3 : ¬ k = a := fun h => h2 h.symm
        simp [h1, h2, h3]

theorem sweep_aux (markSet : List Digest) (blobs acc : List Digest) :
    blobs.foldl (fun orphans dgst => if dgst ∈ markSet then orphans else orphans ++ [dgst]) acc
      = acc ++ blobs.filter (fun d => decide (d ∉ markSet)) := by
  induction blobs generalizing acc with
  | nil => simp
  | cons b rest ih =>
    by_cases h : b ∈ markSet <;> simp [List.foldl_cons, ih, h]

theorem sweep_eq_filter (markSet blobs : List Digest) :
    sweep markSet blobs = blobs.filter (fun d => decide (d ∉ markSet)) := by
  simp [sweep, sweep_aux]

theorem mem_sweep (markSet blobs : List Digest) (d : Digest) :
    d ∈ sweep markSet blobs ↔ d ∈ blobs ∧ d ∉ markSet := by
  simp [sweep_eq_filter]

/-! ## The manifest enumeration -/

theorem ingestManifest_of_lookup (r : Repository) (d : Digest) (m : RepoMaps)
    (h : r.lookupFails d = false) :
    ingestManifest r d m = (r.ingested [d] m, none) := by
  unfold Repository.lookupFails at h
  unfold ingestManifest Repository.ingested Repository.bindTags Repository.markTagged
    Repository.tagsOf
  cases hl : r.lookup d with
  | error e => rw [hl] at h; cases h
  | ok tags =>
    cases tags with
    | nil => simp [hl]
    | cons t ts => simp [hl]

theorem ingestManifest_of_lookupFails (r : Repository) (d : Digest) (m : RepoMaps)
    (h : r.lookupFails d = true) :
    ∃ e, ingestManifest r d m = (m, some e) ∧ e.pathNotFound = false := by
  unfold Repository.lookupFails at h
  unfold ingestManifest
  cases hl : r.lookup d with
  | error e => exact ⟨_, rfl, rfl⟩
  | ok tags => rw [hl] at h; cases h

theorem ingested_cons (r : Repository) (d : Digest) (ds : List Digest) (m : RepoMaps) :
    r.ingested ds (r.ingested [d] m) = r.ingested (d :: ds) m := by
  simp [Repository.ingested]

theorem enumerateManifests_of_lookupsOk (r : Repository) (ds : List Digest) (m : RepoMaps)
    (h : ∀ d ∈ ds, r.lookupFails d = false) :
    enumerateManifests r ds m = (r.ingested ds m, r.manifestsEnd) := by
  induction ds generalizing m with
  | nil => simp [enumerateManifests, Repository.ingested]
  | cons d rest ih =>
    unfold enumerateManifests
    rw [ingestManifest_of_lookup r d m (h d (List.mem_cons_self _ _))]
    simp only
    rw [ih _ (fun x hx => h x (List.mem_cons_of_mem _ hx)), ingested_cons]

theorem enumerateManifests_of_lookupFails (r : Repository) (ds : List Digest) (m : RepoMaps)
    (h : ∃ d ∈ ds, r.lookupFails d = true) :
    ∃ e, (enumerateManifests r ds m).2 = some e ∧ e.pathNotFound = false := by
  induction ds generalizing m with
  | nil => obtain ⟨d, hd, _⟩ := h; cases hd
  | cons d rest ih =>
    unfold enumerateManifests
    cases hf : r.lookupFails d with
    | true =>
      obtain ⟨e, he, hp⟩ := ingestManifest_of_lookupFails r d m hf
      rw [he]
      exact ⟨e, rfl, hp⟩
    | false =>
      rw [ingestManifest_of_lookup r d m hf]
      simp only
      apply ih
      obtain ⟨x, hx, hxf⟩ := h
      rcases List.mem_cons.mp hx with rfl | hx
      · rw [hf] at hxf; cases hxf
      · exact ⟨x, hx, hxf⟩

theorem mem_foldl_markTagged (r : Repository) (ds s : List Digest) (x : Digest) :
    x ∈ ds.foldl r.markTagged s ↔ x ∈ s ∨ (x ∈ ds ∧ r.tagsOf x ≠ []) := by
  induction ds generalizing s with
  | nil => simp
  | cons d rest ih =>
    rw [List.foldl_cons, ih]
    unfold Repository.markTagged
    by_cases ht : r.tagsOf d = []
    · rw [if_pos ht]
      constructor
      · rintro (h | ⟨h, hx⟩)
        · exact Or.inl h
        · exact Or.inr ⟨List.mem_cons_of_mem _ h, hx⟩
      · rintro (h | ⟨h, hx⟩)
        · exact Or.inl h
        · rcases List.mem_cons.mp h with rfl | h
          · exact absurd ht hx
          · exact Or.inr ⟨h, hx⟩
    · rw [if_neg ht, List.mem_insert_iff]
      constructor
      · rintro ((rfl | h) | ⟨h, hx⟩)
        · exact Or.inr ⟨List.mem_cons_self _ _, ht⟩
        · exact Or.inl h
        · exact Or.inr ⟨List.mem_cons_of_mem _ h, hx⟩
      · rintro (h | ⟨h, hx⟩)
        · exact Or.inl (Or.inr h)
        · rcases List.mem_cons.mp h with rfl | h
          · exact Or.inl (Or.inl rfl)
          · exact Or.inr ⟨h, hx⟩

/-! ## The loop over the untagged map -/

theorem mem_foldl_insert_digest (descriptors : List Descriptor) (ms : List Digest)
    (x : Digest) :
    x ∈ descriptors.foldl (fun s d => s.insert d.Digest) ms
      ↔ x ∈ ms ∨ x ∈ descriptors.map Descriptor.Digest := by
  induction descriptors generalizing ms with
  | nil => simp
  | cons d rest ih =>
    rw [List.foldl_cons, ih, List.mem_insert_iff, List.map_cons, List.mem_cons]
    tauto

theorem markReferences_none (r : Repository) (l : UntaggedMap) (ms : List Digest)
    (h : (markReferences r l ms).2 = none) :
    (∀ e ∈ l, e.2 = false → r.getFails e.1 = false) ∧
      ∀ x, x ∈ (markReferences r l ms).1
        ↔ x ∈ ms ∨ ∃ e ∈ l, e.2 = false ∧ x ∈ r.refsOf e.1 := by
  induction l generalizing ms with
  | nil => simp [markReferences]
  | cons p rest ih =>
    obtain ⟨d, u⟩ := p
    cases u with
    | true =>
      simp only [markReferences, if_true] at h ⊢
      obtain ⟨h1, h2⟩ := ih ms h
      refine ⟨?_, ?_⟩
      · intro e he hu
        rcases List.mem_cons.mp he with rfl | he
        · cases hu
        · exact h1 e he hu
      · intro x
        rw [h2 x]
        constructor
        · rintro (hx | ⟨e, he, hu, hx⟩)
          · exact Or.inl hx
          · exact Or.inr ⟨e, List.mem_cons_of_mem _ he, hu, hx⟩
        · rintro (hx | ⟨e, he, hu, hx⟩)
          · exact Or.inl hx
          · rcases List.mem_cons.mp he with rfl | he
            · cases hu
            · exact Or.inr ⟨e, he, hu, hx⟩
    | false =>
      cases hg : r.get d with
      | error e =>
        simp [markReferences, hg] at h
      | ok descriptors =>
        simp only [markReferences, hg] at h ⊢
        simp only [Bool.false_eq_true, if_false] at h ⊢
        obtain ⟨h1, h2⟩ := ih _ h
        have hrefs : r.refsOf d = descriptors.map Descriptor.Digest := by
          simp [Repository.refsOf, hg]
        refine ⟨?_, ?_⟩
        · intro e he hu
          rcases List.mem_cons.mp he with rfl | he
          · simp [Repository.getFails, hg]
          · exact h1 e he hu
        · intro x
          rw [h2 x, mem_foldl_insert_digest, ← hrefs]
          constructor
          · rintro ((hx | hx) | ⟨e, he, hu, hx⟩)
            · exact Or.inl hx
            · exact Or.inr ⟨(d, false), List.mem_cons_self _ _, rfl, hx⟩
            · exact Or.inr ⟨e, List.mem_cons_of_mem _ he, hu, hx⟩
          · rintro (hx | ⟨e, he, hu, hx⟩)
            · exact Or.inl (Or.inl hx)
            · rcases List.mem_cons.mp he with rfl | he
              · exact Or.inl (Or.inr hx)
              · exact Or.inr ⟨e, he, hu, hx⟩

theorem markReferences_of_getsOk (r : Repository) (l : UntaggedMap) (ms : List Digest)
    (h : ∀ e ∈ l, e.2 = false → r.getFails e.1 = false) :
    (markReferences r l ms).2 = none := by
  induction l generalizing ms with
  | nil => simp [markReferences]
  | cons p rest ih =>
    obtain ⟨d, u⟩ := p
    have hrest : ∀ e ∈ rest, e.2 = false → r.getFails e.1 = false :=
      fun e he => h e (List.mem_cons_of_mem _ he)
    cases u with
    | true => simpa [markReferences] using ih ms hrest
    | false =>
      have hd := h (d, false) (List.mem_cons_self _ _) rfl
      cases hg : r.get d with
      | error e => simp [Repository.getFails, hg] at hd
      | ok descriptors => simpa [markReferences, hg] using ih _ hrest

/-! ## The visit of one repository -/

theorem getsOk_iff_range (ord : MapOrder) (r : Repository) :
    r.getsOk ↔ ∀ e ∈ ord.range r.untaggedMap, e.2 = false → r.getFails e.1 = false := by
  unfold Repository.getsOk Repository.untaggedMap
  constructor
  · intro h e he hu
    rw [(ord.perm _).mem_iff, List.mem_map] at he
    obtain ⟨d, hd, rfl⟩ := he
    exact h d hd (by simpa using hu)
  · intro h d hd ht
    refine h (d, decide (r.tagsOf d = [])) ?_ (by simpa using ht)
    rw [(ord.perm _).mem_iff, List.mem_map]
    exact ⟨d, hd, rfl⟩

theorem exists_range_iff (ord : MapOrder) (r : Repository) (x : Digest) :
    (∃ e ∈ ord.range r.untaggedMap, e.2 = false ∧ x ∈ r.refsOf e.1)
      ↔ ∃ d ∈ r.manifests, r.tagsOf d ≠ [] ∧ x ∈ r.refsOf d := by
  unfold Repository.untaggedMap
  constructor
  · rintro ⟨e, he, hu, hx⟩
    rw [(ord.perm _).mem_iff, List.mem_map] at he
    obtain ⟨d, hd, rfl⟩ := he
    exact ⟨d, hd, by simpa using hu, hx⟩
  · rintro ⟨d, hd, ht, hx⟩
    refine ⟨(d, decide (r.tagsOf d = [])), ?_, by simpa using ht, hx⟩
    rw [(ord.perm _).mem_iff, List.mem_map]
    exact ⟨d, hd, rfl⟩

theorem ingested_untagged (r : Repository) (t : TagTable) (s : List Digest) :
    (r.ingested r.manifests { tags := t, untagged := [], markSet := s }).untagged
      = r.untaggedMap := by
  simp [Repository.ingested, Repository.untaggedMap]

theorem ingested_tags (r : Repository) (s : List Digest) :
    (r.ingested r.manifests { tags := listedTags r, untagged := [], markSet := s }).tags
      = r.tagTable := by
  simp [Repository.ingested, Repository.tagTable]

theorem markRepository_missing (ord : MapOrder) (h : Nat) (r : Repository) (st : MarkState)
    (hl : r.lookupsOk) (hp : isPathNotFound r.manifestsEnd = true) :
    markRepository ord h r st
      = (st.record h (r.ingested r.manifests
          { tags := listedTags r, untagged := [], markSet := st.markSet }), none) := by
  unfold markRepository
  rw [enumerateManifests_of_lookupsOk r r.manifests _ hl]
  simp [hp]

theorem markRepository_full (ord : MapOrder) (h : Nat) (r : Repository) (st : MarkState)
    (hl : r.lookupsOk) (hp : isPathNotFound r.manifestsEnd = false) :
    markRepository ord h r st
      = (st.record h
          { tags := r.tagTable, untagged := r.untaggedMap,
            markSet := (markReferences r (ord.range r.untaggedMap)
              (r.manifests.foldl r.markTagged st.markSet)).1 },
         match (markReferences r (ord.range r.untaggedMap)
              (r.manifests.foldl r.markTagged st.markSet)).2 with
         | some e => some e
         | none => r.manifestsEnd) := by
  unfold markRepository
  rw [enumerateManifests_of_lookupsOk r r.manifests _ hl]
  simp only [hp, ingested_untagged, ingested_tags]
  simp only [Repository.ingested]
  cases (markReferences r (ord.range r.untaggedMap)
    (r.manifests.foldl r.markTagged st.markSet)).2 <;> simp

theorem markRepository_of_lookupFails (ord : MapOrder) (h : Nat) (r : Repository)
    (st : MarkState) (hl : ¬ r.lookupsOk) :
    ∃ e, (markRepository ord h r st).2 = some e := by
  have hex : ∃ d ∈ r.manifests, r.lookupFails d = true := by
    unfold Repository.lookupsOk at hl
    push_neg at hl
    obtain ⟨d, hd, hf⟩ := hl
    exact ⟨d, hd, by simpa using hf⟩
  obtain ⟨e, he, hpnf⟩ := enumerateManifests_of_lookupFails r r.manifests
    { tags := listedTags r, untagged := [], markSet := st.markSet } hex
  unfold markRepository
  simp only [he, isPathNotFound, hpnf]
  cases (markReferences r _ _).2 <;> simp

theorem visitRepo_of_opens (ord : MapOrder) (h : Nat) (r : Repository) (st : MarkState)
    (ho : r.opens) : visitRepo ord h r st = markRepository ord h r st := by
  obtain ⟨h1, h2, h3, h4⟩ := ho
  simp [visitRepo, h1, h2, h3, h4]

theorem visitRepo_of_not_opens (ord : MapOrder) (h : Nat) (r : Repository) (st : MarkState)
    (ho : ¬ r.opens) : ∃ e, (visitRepo ord h r st).2 = some e := by
  unfold Repository.opens at ho
  unfold visitRepo
  cases h1 : r.withName with
  | some e => exact ⟨_, rfl⟩
  | none =>
    cases h2 : r.repository with
    | some e => exact ⟨_, rfl⟩
    | none =>
      cases h3 : r.manifestService with
      | some e => exact ⟨_, rfl⟩
      | none =>
        cases h4 : r.isManifestEnumerator with
        | false => exact ⟨_, rfl⟩
        | true => exact absurd ⟨h1, h2, h3, h4⟩ ho

theorem visitRepo_none_iff (ord : MapOrder) (h : Nat) (r : Repository) (st : MarkState) :
    (visitRepo ord h r st).2 = none ↔ r.visitOk := by
  unfold Repository.visitOk
  by_cases ho : r.opens
  swap
  · obtain ⟨e, he⟩ := visitRepo_of_not_opens ord h r st ho
    simp [he, ho]
  rw [visitRepo_of_opens ord h r st ho]
  by_cases hl : r.lookupsOk
  swap
  · obtain ⟨e, he⟩ := markRepository_of_lookupFails ord h r st hl
    simp [he, hl]
  by_cases hp : isPathNotFound r.manifestsEnd = true
  · rw [markRepository_missing ord h r st hl hp]
    simp [ho, hl, hp]
  · have hp' : isPathNotFound r.manifestsEnd = false := by simpa using hp
    rw [markRepository_full ord h r st hl hp']
    simp only [ho, hl, hp, true_and, false_or]
    by_cases hg : r.getsOk
    · rw [markReferences_of_getsOk r _ _ ((getsOk_iff_range ord r).mp hg)]
      simp [hg]
    · cases hm : (markReferences r (ord.range r.untaggedMap)
          (r.manifests.foldl r.markTagged st.markSet)).2 with
      | some e => simp [hg]
      | none =>
        exact absurd ((getsOk_iff_range ord r).mpr (markReferences_none r _ _ hm).1) hg

theorem visitRepo_state (ord : MapOrder) (h : Nat) (r : Repository) (st : MarkState)
    (hv : r.visitOk) :
    (visitRepo ord h r st).1.Untagged = st.Untagged ++ [(h, r.untaggedMap)] ∧
    (visitRepo ord h r st).1.Tags = st.Tags ++ [(h, r.tagTable)] ∧
    ∀ x, x ∈ (visitRepo ord h r st).1.markSet ↔ x ∈ st.markSet ∨ r.marked x := by
  obtain ⟨ho, hl, hend⟩ := hv
  rw [visitRepo_of_opens ord h r st ho]
  unfold Repository.marked
  by_cases hp : isPathNotFound r.manifestsEnd = true
  · rw [markRepository_missing ord h r st hl hp]
    have hne : r.manifestsEnd ≠ none := by
      intro hn
      rw [hn] at hp
      cases hp
    refine ⟨?_, ?_, ?_⟩
    · simp [MarkState.record, ingested_untagged]
    · simp [MarkState.record, ingested_tags]
    · intro x
      simp [MarkState.record, Repository.ingested, mem_foldl_markTagged, hne]
  · have hp' : isPathNotFound r.manifestsEnd = false := by simpa using hp
    rcases hend with hq | ⟨hn, hg⟩
    · exact absurd hq hp
    rw [markRepository_full ord h r st hl hp']
    have hmk := markReferences_of_getsOk r (ord.range r.untaggedMap)
      (r.manifests.foldl r.markTagged st.markSet) ((getsOk_iff_range ord r).mp hg)
    refine ⟨rfl, rfl, ?_⟩
    intro x
    simp only [MarkState.record]
    rw [(markReferences_none r _ _ hmk).2 x, mem_foldl_markTagged, exists_range_iff]
    simp only [hn, true_and]
    tauto

/-! ## The repository enumeration -/

theorem enumerateRepos_none_iff (ord : MapOrder) (fin : Option Err) (rs : List Repository)
    (h : Nat) (st : MarkState) :
    (enumerateRepos ord fin rs h st).2 = none ↔ fin = none ∧ ∀ r ∈ rs, r.visitOk := by
  induction rs generalizing h st with
  | nil => simp [enumerateRepos]
  | cons r rest ih =>
    unfold enumerateRepos
    have hv := visitRepo_none_iff ord h r st
    rcases hvr : visitRepo ord h r st with ⟨st1, o⟩
    rw [hvr] at hv
    cases o with
    | some e =>
      have hno : ¬ r.visitOk := fun hk => by simpa using hv.mpr hk
      simp [hno]
    | none =>
      have hk : r.visitOk := hv.mp rfl
      simp only [ih, List.mem_cons, forall_eq_or_imp, hk, true_and]

theorem enumerateRepos_state (ord : MapOrder) (fin : Option Err) (rs : List Repository)
    (h : Nat) (st : MarkState) (hv : ∀ r ∈ rs, r.visitOk) :
    (enumerateRepos ord fin rs h st).1.Untagged
        = st.Untagged ++ handlesFrom Repository.untaggedMap h rs ∧
    (enumerateRepos ord fin rs h st).1.Tags
        = st.Tags ++ handlesFrom Repository.tagTable h rs ∧
    ∀ x, x ∈ (enumerateRepos ord fin rs h st).1.markSet
        ↔ x ∈ st.markSet ∨ ∃ r ∈ rs, r.marked x := by
  induction rs generalizing h st with
  | nil => simp [enumerateRepos, handlesFrom]
  | cons r rest ih =>
    have hk : r.visitOk := hv r (List.mem_cons_self _ _)
    have hn := (visitRepo_none_iff ord h r st).mpr hk
    obtain ⟨hu, ht, hm⟩ := visitRepo_state ord h r st hk
    unfold enumerateRepos
    rcases hvr : visitRepo ord h r st with ⟨st1, o⟩
    rw [hvr] at hn hu ht hm
    simp only at hn hu ht hm
    subst hn
    simp only
    obtain ⟨iu, it, im⟩ := ih (h + 1) st1 (fun x hx => hv x (List.mem_cons_of_mem _ hx))
    refine ⟨?_, ?_, ?_⟩
    · rw [iu, hu]; simp [handlesFrom]
    · rw [it, ht]; simp [handlesFrom]
    · intro x
      rw [im x, hm x]
      simp only [List.mem_cons, exists_eq_or_imp]
      tauto

theorem markPhase_none_iff (ord : MapOrder) (registry : Namespace) :
    (markPhase ord registry).2 = none
      ↔ registry.reposEnd = none ∧ ∀ r ∈ registry.repos, r.visitOk := by
  unfold markPhase
  exact enumerateRepos_none_iff ord _ _ _ _

theorem mem_liveSet (ord : MapOrder) (registry : Namespace)
    (hv : ∀ r ∈ registry.repos, r.visitOk) (x : Digest) :
    x ∈ liveSet ord registry ↔ ∃ r ∈ registry.repos, r.marked x := by
  unfold liveSet markPhase
  rw [(enumerateRepos_state ord _ _ _ _ hv).2.2 x]
  simp

/-! ## The result of `Stats` -/

theorem Stats_of_runs (ord : MapOrder) (registry : Namespace) (h : registry.runs) :
    Stats ord registry = (some (registry.report ord), none) := by
  obtain ⟨h1, h2, h3, h4⟩ := h
  have hm := (markPhase_none_iff ord registry).mpr ⟨h2, h3⟩
  have hs := enumerateRepos_state ord registry.reposEnd registry.repos 0
    { Untagged := [], Tags := [], markSet := [] } h3
  unfold Stats Namespace.report liveSet
  simp only [h1, hm, h4]
  unfold markPhase
  rw [hs.1, hs.2.1]
  simp

theorem Stats_of_not_runs (ord : MapOrder) (registry : Namespace) (h : ¬ registry.runs) :
    ∃ e, Stats ord registry = (none, some e) := by
  cases h1 : registry.isRepositoryEnumerator with
  | false =>
    exact ⟨errorf "unable to convert Namespace to RepositoryEnumerator", by simp [Stats, h1]⟩
  | true =>
    cases hm : (markPhase ord registry).2 with
    | some e => exact ⟨errorf ("failed to mark: " ++ e.text), by simp [Stats, h1, hm]⟩
    | none =>
      cases h4 : registry.blobsEnd with
      | some e =>
        exact ⟨errorf ("error enumerating blobs: " ++ e.text), by simp [Stats, h1, hm, h4]⟩
      | none =>
        obtain ⟨h2, h3⟩ := (markPhase_none_iff ord registry).mp hm
        exact absurd ⟨h1, h2, h3, h4⟩ h

theorem runs_of_Stats (ord : MapOrder) (registry : Namespace) (rep : StatsResults)
    (h : (Stats ord registry).1 = some rep) :
    registry.runs ∧ rep = registry.report ord := by
  by_cases hr : registry.runs
  · rw [Stats_of_runs ord registry hr] at h
    exact ⟨hr, (Option.some.inj h).symm⟩
  · obtain ⟨e, he⟩ := Stats_of_not_runs ord registry hr
    rw [he] at h
    cases h

theorem handleGet_handlesFrom {α β : Type} (f : α → β) (rs : List α) (h i : Nat) :
    handleGet (handlesFrom f h rs) (h + i) = (rs[i]?).map f := by
  induction rs generalizing h i with
  | nil => rfl
  | cons a rest ih =>
    cases i with
    | zero => simp [handlesFrom, handleGet]
    | succ n =>
      have hne : ¬ h = h + (n + 1) := by omega
      simp only [handlesFrom, handleGet, if_neg hne, List.getElem?_cons_succ]
      have := ih (h + 1) n
      rwa [show h + 1 + n = h + (n + 1) by omega] at this

theorem handleGet_report {β : Type} (f : Repository → β) (rs : List Repository) (i : Nat) :
    handleGet (handlesFrom f 0 rs) i = (rs[i]?).map f := by
  simpa using handleGet_handlesFrom f rs 0 i

theorem visitOk_of_noFail (r : Repository) (h : r.noFail) : r.visitOk :=
  ⟨h.1, h.2.2.1, Or.inr ⟨h.2.2.2.1, h.2.2.2.2⟩⟩

theorem runs_of_noFail (registry : Namespace) (h : registry.noFail) : registry.runs :=
  ⟨h.1, h.2.1, fun r hr => visitOk_of_noFail r (h.2.2.2 r hr), h.2.2.1⟩

theorem marked_imp_marks (r : Repository) (x : Digest) (h : r.marked x) : r.marks x := by
  rcases h with ⟨hx, ht⟩ | ⟨_, d, hd, ht, hx⟩
  · exact ⟨x, hx, ht, Or.inl rfl⟩
  · exact ⟨d, hd, ht, Or.inr hx⟩

theorem marks_imp_marked (r : Repository) (x : Digest) (hend : r.manifestsEnd = none)
    (h : r.marks x) : r.marked x := by
  obtain ⟨d, hd, ht, hx | hx⟩ := h
  · subst hx
    exact Or.inl ⟨hd, ht⟩
  · exact Or.inr ⟨hend, d, hd, ht, hx⟩

theorem mapGet_bindTags (r : Repository) (T : TagTable) (d : Digest) (t : String) :
    mapGet (r.bindTags T d) t = if t ∈ r.tagsOf d then some (some d) else mapGet T t := by
  unfold Repository.bindTags
  exact mapGet_foldl_mapSet (r.tagsOf d) (some d) T t

theorem mapGet_foldl_bindTags (r : Repository) (ds : List Digest) (T : TagTable)
    (t : String) :
    mapGet (ds.foldl r.bindTags T) t
      = match (ds.filter (fun d => decide (t ∈ r.tagsOf d))).getLast? with
        | some d => some (some d)
        | none => mapGet T t := by
  induction ds using List.reverseRecOn with
  | nil => simp
  | append_singleton l d ih =>
    rw [List.foldl_append, List.foldl_cons, List.foldl_nil, mapGet_bindTags, List.filter_append]
    by_cases ht : t ∈ r.tagsOf d
    · simp [ht, List.getLast?_concat]
    · simp [ht, ih]

theorem mapGet_listedTags (r : Repository) (t : String) :
    mapGet (listedTags r) t = if t ∈ r.tagsAll.1 then some none else none := by
  unfold listedTags
  rw [mapGet_foldl_mapSet]
  rfl

theorem mapGet_tagTable (r : Repository) (t : String) (ht : t ∈ r.tagsAll.1) :
    mapGet r.tagTable t = some (r.lastWriter t) := by
  unfold Repository.tagTable Repository.lastWriter
  rw [mapGet_foldl_bindTags, mapGet_listedTags, if_pos ht]
  cases (r.manifests.filter (fun d => decide (t ∈ r.tagsOf d))).getLast? <;> rfl

theorem map_snd_handlesFrom {α β : Type} (f : α → β) (rs : List α) (h : Nat) :
    (handlesFrom f h rs).map Prod.snd = rs.map f := by
  induction rs generalizing h with
  | nil => rfl
  | cons a rest ih => simp [handlesFrom, ih]

theorem eraseIdx_middle {α : Type} (pre post : List α) (a : α) :
    (pre ++ a :: post).eraseIdx pre.length = pre ++ post := by
  rw [List.eraseIdx_append_of_length_le (Nat.le_refl _)]
  simp

theorem visitOk_of_missingMetadata (r : Repository) (h : r.missingMetadata) : r.visitOk :=
  ⟨h.1, h.2.2.1, Or.inl h.2.2.2⟩

/-! ## What the run reads of a repository -/

theorem not_visitOk_of_enumerationBreaks (r : Repository) (h : r.enumerationBreaks) :
    ¬ r.visitOk := by
  rintro ⟨_, hl, hend⟩
  rcases h with ⟨d, hd, hf⟩ | ⟨e, he, hp⟩
  · rw [hl d hd] at hf
    cases hf
  · rcases hend with hq | ⟨hn, _⟩
    · simp [he, isPathNotFound, hp] at hq
    · rw [he] at hn
      cases hn

/-! ## The claims -/

/-- C1, partition property: when `Stats` returns a report and the blob
enumerator visits no digest twice, every digest of the population is in exactly
one of the live set and the report's `OrphanBlobs`, and a digest of
`OrphanBlobs` occurs there exactly once. -/
theorem Stats_partition (ord : MapOrder) (registry : Namespace) (rep : StatsResults)
    (hrep : Stats ord registry = (some rep, none)) (hnd : registry.blobs.Nodup)
    (d : Digest) (hd : d ∈ registry.blobs) :
    ((d ∈ liveSet ord registry ∧ d ∉ rep.OrphanBlobs) ∨
        (d ∉ liveSet ord registry ∧ d ∈ rep.OrphanBlobs)) ∧
      (d ∈ rep.OrphanBlobs → rep.OrphanBlobs.count d = 1) := by
  obtain ⟨_, rfl⟩ := runs_of_Stats ord registry rep (by rw [hrep])
  simp only [Namespace.report, mem_sweep]
  refine ⟨?_, ?_⟩
  · by_cases hl : d ∈ liveSet ord registry
    · exact Or.inl ⟨hl, fun h => h.2 hl⟩
    · exact Or.inr ⟨hl, hd, hl⟩
  · intro h
    rw [sweep_eq_filter]
    apply List.count_eq_one_of_mem (hnd.filter _)
    rw [← sweep_eq_filter, mem_sweep]
    exact h

/-- The partition property on `registryA`, at the referenced blob `b1`. -/
theorem Stats_partition_witness :
    registryA.blobs.Nodup ∧ "b1" ∈ registryA.blobs ∧
    (("b1" ∈ liveSet MapOrder.insertion registryA ∧
        "b1" ∉ ["b3", "m2", "x"]) ∨
      ("b1" ∉ liveSet MapOrder.insertion registryA ∧ "b1" ∈ ["b3", "m2", "x"])) ∧
    ("b1" ∈ ["b3", "m2", "x"] → ["b3", "m2", "x"].count "b1" = 1) :=
  ⟨by decide, by decide,
    Stats_partition MapOrder.insertion registryA
      { Untagged := [(0, [("m1", false), ("m2", true)])],
        OrphanBlobs := ["b3", "m2", "x"],
        Tags := [(0, [("v1", some "m1"), ("v2", none)])] }
      (by decide) (by decide) "b1" (by decide)⟩

/-- C2, marking is exact when nothing fails: when no operation of the store
returns an error, `Stats` returns a report and a digest is in the live set at
sweep time exactly when, for some repository, it is an enumerated manifest
whose reverse lookup returned a tag or a reference declared by the body of such
a manifest. -/
theorem liveSet_exact (ord : MapOrder) (registry : Namespace) (hno : registry.noFail) :
    (∃ rep, Stats ord registry = (some rep, none)) ∧
    ∀ x, x ∈ liveSet ord registry ↔
      ∃ r ∈ registry.repos, ∃ d ∈ r.manifests,
        r.tagsOf d ≠ [] ∧ (x = d ∨ x ∈ r.refsOf d) := by
  have hr := runs_of_noFail registry hno
  refine ⟨⟨_, Stats_of_runs ord registry hr⟩, fun x => ?_⟩
  rw [mem_liveSet ord registry hr.2.2.1]
  constructor
  · rintro ⟨r, hrm, hx⟩
    exact ⟨r, hrm, marked_imp_marks r x hx⟩
  · rintro ⟨r, hrm, hx⟩
    exact ⟨r, hrm, marks_imp_marked r x (hno.2.2.2 r hrm).2.2.2.1 hx⟩

/-- Exact marking on `registryA`, where no operation fails. -/
theorem liveSet_exact_witness :
    registryA.noFail ∧
    ((∃ rep, Stats MapOrder.insertion registryA = (some rep, none)) ∧
      ∀ x, x ∈ liveSet MapOrder.insertion registryA ↔
        ∃ r ∈ registryA.repos, ∃ d ∈ r.manifests,
          r.tagsOf d ≠ [] ∧ (x = d ∨ x ∈ r.refsOf d)) :=
  ⟨by decide, liveSet_exact MapOrder.insertion registryA (by decide)⟩

/-- C3 as stated fails on `registryB`: the run returns a report that flags the
manifest `m2` as untagged, `m2` is in the blob population, no tagged manifest
references it, and `m2` is listed in `OrphanBlobs`. -/
theorem untagged_is_orphaned_registryB :
    Stats MapOrder.insertion registryB
      = (some { Untagged := [(0, [("m2", true)])],
                OrphanBlobs := ["m2", "b3"],
                Tags := [(0, [])] }, none) ∧
    "m2" ∈ registryB.blobs ∧
    (∀ r ∈ registryB.repos, ∀ m ∈ r.manifests, r.tagsOf m = []) := by
  decide

/-- C3 amended: when `Stats` returns a report and `D` is flagged untagged in
the untagged map of the repository with handle `i`, then `D` is an enumerated
manifest of that repository whose reverse lookup returned no tag, and `D` is in
`OrphanBlobs` exactly when it is in the blob population and not in the live
set; the flag plays no part.  In particular an untagged `D` of the population
that is no tagged manifest and is referenced by none is listed as an orphan. -/
theorem untagged_orphan_iff (ord : MapOrder) (registry : Namespace) (rep : StatsResults)
    (hrep : Stats ord registry = (some rep, none)) (i : Nat) (um : UntaggedMap) (D : Digest)
    (hum : handleGet rep.Untagged i = some um) (hD : (D, true) ∈ um) :
    (∃ r, registry.repos[i]? = some r ∧ D ∈ r.manifests ∧ r.tagsOf D = []) ∧
    (D ∈ rep.OrphanBlobs ↔ D ∈ registry.blobs ∧ D ∉ liveSet ord registry) ∧
    (D ∈ registry.blobs →
      (∀ r ∈ registry.repos, ∀ m ∈ r.manifests, r.tagsOf m ≠ [] → D ≠ m ∧ D ∉ r.refsOf m) →
      D ∈ rep.OrphanBlobs) := by
  obtain ⟨hr, rfl⟩ := runs_of_Stats ord registry rep (by rw [hrep])
  have hiff : D ∈ (registry.report ord).OrphanBlobs
      ↔ D ∈ registry.blobs ∧ D ∉ liveSet ord registry := by
    simp only [Namespace.report, mem_sweep]
  refine ⟨?_, hiff, ?_⟩
  · simp only [Namespace.report, handleGet_report] at hum
    cases hri : registry.repos[i]? with
    | none => simp [hri] at hum
    | some r =>
      refine ⟨r, rfl, ?_⟩
      simp only [hri, Option.map_some', Option.some.injEq] at hum
      subst hum
      simp only [Repository.untaggedMap, List.mem_map, Prod.mk.injEq] at hD
      obtain ⟨d, hd, rfl, ht⟩ := hD
      exact ⟨hd, by simpa using ht⟩
  · intro hb hfree
    rw [hiff]
    refine ⟨hb, fun hl => ?_⟩
    rw [mem_liveSet ord registry hr.2.2.1] at hl
    obtain ⟨r, hrm, hx⟩ := hl
    obtain ⟨m, hm, ht, hx⟩ := marked_imp_marks r D hx
    have := hfree r hrm m hm ht
    rcases hx with hx | hx
    · exact this.1 hx
    · exact this.2 hx

/-- The amended C3 on `registryB`, at the untagged manifest `m2`. -/
theorem untagged_orphan_iff_witness :
    handleGet [(0, [("m2", true)])] 0 = some [("m2", true)] ∧
    ("m2", true) ∈ [("m2", true)] ∧
    ((∃ r, registryB.repos[0]? = some r ∧ "m2" ∈ r.manifests ∧ r.tagsOf "m2" = []) ∧
    ("m2" ∈ ["m2", "b3"] ↔ "m2" ∈ registryB.blobs ∧ "m2" ∉ liveSet MapOrder.insertion registryB) ∧
    ("m2" ∈ registryB.blobs →
      (∀ r ∈ registryB.repos, ∀ m ∈ r.manifests,
        r.tagsOf m ≠ [] → "m2" ≠ m ∧ "m2" ∉ r.refsOf m) →
      "m2" ∈ ["m2", "b3"])) :=
  ⟨by decide, by decide,
    untagged_orphan_iff MapOrder.insertion registryB
      { Untagged := [(0, [("m2", true)])], OrphanBlobs := ["m2", "b3"], Tags := [(0, [])] }
      (by decide) 0 [("m2", true)] "m2" (by decide) (by decide)⟩

/-- C4, tolerance: when the manifest enumeration of one repository fails with
path-not-found and no other operation fails, `Stats` returns a report, and so
does the run on the store without that repository; the tag tables and untagged
maps of the first report, in repository order and with those of the failing
repository left out, are the tag tables and untagged maps of the second. -/
theorem missing_repository_tolerated (ord : MapOrder) (registry : Namespace)
    (pre post : List Repository) (r : Repository)
    (hrepos : registry.repos = pre ++ r :: post)
    (henum : registry.isRepositoryEnumerator = true) (hend : registry.reposEnd = none)
    (hblobs : registry.blobsEnd = none)
    (hr : r.missingMetadata) (hothers : ∀ q ∈ pre ++ post, q.noFail) :
    ∃ rep rep', Stats ord registry = (some rep, none) ∧
      Stats ord { registry with repos := pre ++ post } = (some rep', none) ∧
      (rep.Tags.map Prod.snd).eraseIdx pre.length = rep'.Tags.map Prod.snd ∧
      (rep.Untagged.map Prod.snd).eraseIdx pre.length = rep'.Untagged.map Prod.snd := by
  have hrun : registry.runs := by
    refine ⟨henum, hend, ?_, hblobs⟩
    intro q hq
    rw [hrepos] at hq
    rcases List.mem_append.mp hq with hq | hq
    · exact visitOk_of_noFail q (hothers q (List.mem_append_left _ hq))
    · rcases List.mem_cons.mp hq with rfl | hq
      · exact visitOk_of_missingMetadata q hr
      · exact visitOk_of_noFail q (hothers q (List.mem_append_right _ hq))
  have hrun' : Namespace.runs { registry with repos := pre ++ post } :=
    ⟨henum, hend, fun q hq => visitOk_of_noFail q (hothers q hq), hblobs⟩
  refine ⟨_, _, Stats_of_runs ord registry hrun, Stats_of_runs ord _ hrun', ?_, ?_⟩
  · simp only [Namespace.report, map_snd_handlesFrom, hrepos]
    rw [List.map_append, List.map_cons, ← List.length_map pre Repository.tagTable,
      eraseIdx_middle, List.map_append]
  · simp only [Namespace.report, map_snd_handlesFrom, hrepos]
    rw [List.map_append, List.map_cons, ← List.length_map pre Repository.untaggedMap,
      eraseIdx_middle, List.map_append]

/-- Tolerance on `registryC`, whose second repository has lost its metadata. -/
theorem missing_repository_tolerated_witness :
    repoMissing.missingMetadata ∧
    ∃ rep rep', Stats MapOrder.reversed registryC = (some rep, none) ∧
      Stats MapOrder.reversed
        { registryC with
          repos := [sampleRepo "a" ["v1", "v2"]
              [("m1", ["v1"], ["b1", "b2"]), ("m2", [], ["b3"])]] ++
            [sampleRepo "c" ["w"] [("m3", ["w"], ["b4"])]] } = (some rep', none) ∧
      (rep.Tags.map Prod.snd).eraseIdx 1 = rep'.Tags.map Prod.snd ∧
      (rep.Untagged.map Prod.snd).eraseIdx 1 = rep'.Untagged.map Prod.snd :=
  ⟨by decide,
    missing_repository_tolerated MapOrder.reversed registryC
      [sampleRepo "a" ["v1", "v2"] [("m1", ["v1"], ["b1", "b2"]), ("m2", [], ["b3"])]]
      [sampleRepo "c" ["w"] [("m3", ["w"], ["b4"])]] repoMissing
      rfl rfl rfl rfl (by decide) (by decide)⟩

/-- C5 as stated fails on `registryD`: the manifest enumeration of its
repository ends with path-not-found, the run returns a report, and the report
holds for that repository a tag table with two entries and an untagged map
with one. -/
theorem missing_metadata_not_empty_registryD :
    isPathNotFound repoMissing.manifestsEnd = true ∧
    Stats MapOrder.insertion registryD
      = (some { Untagged := [(0, [("m1", false)])],
                OrphanBlobs := ["b1"],
                Tags := [(0, [("v1", some "m1"), ("v2", none)])] }, none) := by
  decide

/-- C5 amended: when `Stats` returns a report and the manifest enumeration of
the repository with handle `i` failed with path-not-found, the report holds for
it the maps built up to the failure: a tag table with an entry for every listed
tag, bound to the last visited manifest whose reverse lookup contains the tag
and to nil when there is none, and an untagged map with one flag for every
manifest visited before the failure.  Both are empty exactly when the tag
listing returned no tag and no manifest was visited. -/
theorem missing_metadata_contribution (ord : MapOrder) (registry : Namespace)
    (rep : StatsResults) (hrep : Stats ord registry = (some rep, none))
    (i : Nat) (r : Repository) (hi : registry.repos[i]? = some r)
    (_hp : isPathNotFound r.manifestsEnd = true) :
    ∃ tbl um, handleGet rep.Tags i = some tbl ∧ handleGet rep.Untagged i = some um ∧
      (∀ t ∈ r.tagsAll.1, mapGet tbl t = some (r.lastWriter t)) ∧
      um = r.manifests.map (fun d => (d, decide (r.tagsOf d = []))) ∧
      ((tbl = [] ∧ um = []) ↔ (r.tagsAll.1 = [] ∧ r.manifests = [])) := by
  obtain ⟨_, rfl⟩ := runs_of_Stats ord registry rep (by rw [hrep])
  refine ⟨r.tagTable, r.untaggedMap, ?_, ?_, fun t ht => mapGet_tagTable r t ht, rfl, ?_⟩
  · simp [Namespace.report, handleGet_report, hi]
  · simp [Namespace.report, handleGet_report, hi]
  · constructor
    · rintro ⟨htbl, hum⟩
      refine ⟨?_, by simpa [Repository.untaggedMap] using hum⟩
      cases hl : r.tagsAll.1 with
      | nil => rfl
      | cons t rest =>
        have := mapGet_tagTable r t (by rw [hl]; exact List.mem_cons_self _ _)
        rw [htbl] at this
        cases this
    · rintro ⟨ht, hm⟩
      simp [Repository.tagTable, Repository.untaggedMap, listedTags, ht, hm]

/-- The amended C5 on `registryD`. -/
theorem missing_metadata_contribution_witness :
    registryD.repos[0]? = some repoMissing ∧
    isPathNotFound repoMissing.manifestsEnd = true ∧
    ∃ tbl um,
      handleGet [(0, [("v1", some "m1"), ("v2", none)])] 0 = some tbl ∧
      handleGet [(0, [("m1", false)])] 0 = some um ∧
      (∀ t ∈ repoMissing.tagsAll.1, mapGet tbl t = some (repoMissing.lastWriter t)) ∧
      um = repoMissing.manifests.map (fun d => (d, decide (repoMissing.tagsOf d = []))) ∧
      ((tbl = [] ∧ um = []) ↔ (repoMissing.tagsAll.1 = [] ∧ repoMissing.manifests = [])) :=
  ⟨rfl, by decide,
    missing_metadata_contribution MapOrder.insertion registryD
      { Untagged := [(0, [("m1", false)])], OrphanBlobs := ["b1"],
        Tags := [(0, [("v1", some "m1"), ("v2", none)])] }
      (by decide) 0 repoMissing rfl (by decide)⟩

/-- C7, a failed fetch of a tagged manifest's body is fatal: when the manifest
enumerator of a repository ends without an error of its own and the body of an
enumerated manifest whose reverse lookup returned a tag cannot be fetched,
`Stats` returns an error and no report. -/
theorem manifest_fetch_failure_fatal (ord : MapOrder) (registry : Namespace)
    (r : Repository) (d : Digest) (hr : r ∈ registry.repos)
    (hend : r.manifestsEnd = none)
    (hd : d ∈ r.manifests) (ht : r.tagsOf d ≠ []) (hg : r.getFails d = true) :
    ∃ e, Stats ord registry = (none, some e) := by
  apply Stats_of_not_runs
  rintro ⟨_, _, hv, _⟩
  obtain ⟨_, _, hq | ⟨_, hgets⟩⟩ := hv r hr
  · rw [hend] at hq
    cases hq
  · rw [hgets d hd ht] at hg
    cases hg

/-- The fatal fetch on `registryF`, whose tagged manifest `m1` has no body. -/
theorem manifest_fetch_failure_fatal_witness :
    (∃ r ∈ registryF.repos, r.manifestsEnd = none ∧ "m1" ∈ r.manifests ∧
      r.tagsOf "m1" ≠ [] ∧ r.getFails "m1" = true) ∧
    ∃ e, Stats MapOrder.insertion registryF = (none, some e) :=
  ⟨by decide,
    manifest_fetch_failure_fatal MapOrder.insertion registryF
      { sampleRepo "a" ["v1"] [("m1", ["v1"], ["b1"])] with
        get := fun _ => .error { pathNotFound := false, text := "manifest unknown" } }
      "m1" (List.mem_singleton.mpr rfl) rfl (by decide) (by decide) (by decide)⟩

set_option maxRecDepth 20000 in
/-- C8 as stated fails on `registryG` and `registryH`: the manifest
enumeration of `alpha` ends with an error that is not path-not-found, a reverse
lookup fails inside the enumeration of `beta`, and in both runs the text of the
error `Stats` returns does not contain the name of the repository. -/
theorem enumeration_error_omits_name :
    Stats MapOrder.insertion registryG
      = (none, some (errorf "failed to mark: disk failure")) ∧
    ¬ ("alpha".toList <:+: "failed to mark: disk failure".toList) ∧
    Stats MapOrder.insertion registryH
      = (none, some (errorf
          "failed to mark: failed to retrieve tags for digest m1: link unreadable")) ∧
    ¬ ("beta".toList <:+:
      "failed to mark: failed to retrieve tags for digest m1: link unreadable".toList) := by
  decide

/-- C8 amended: when the manifest enumeration of an enumerated repository
fails with an error other than path-not-found (a failed reverse lookup
included), `Stats` aborts the run: the repository enumeration ends with an
error `e`, and `Stats` returns no report and the error whose text is
`failed to mark: ` followed by the text of `e`, to which it adds nothing else. -/
theorem enumeration_failure_aborts (ord : MapOrder) (registry : Namespace) (r : Repository)
    (henum : registry.isRepositoryEnumerator = true) (hr : r ∈ registry.repos)
    (hb : r.enumerationBreaks) :
    ∃ e, (markPhase ord registry).2 = some e ∧
      Stats ord registry = (none, some (errorf ("failed to mark: " ++ e.text))) := by
  cases hm : (markPhase ord registry).2 with
  | none =>
    exact absurd (((markPhase_none_iff ord registry).mp hm).2 r hr)
      (not_visitOk_of_enumerationBreaks r hb)
  | some e =>
    refine ⟨e, rfl, ?_⟩
    simp [Stats, henum, hm]

/-- The amended C8 on `registryG`: the enumeration of `alpha` ends with the
error `disk failure`. -/
theorem enumeration_failure_aborts_witness :
    registryG.isRepositoryEnumerator = true ∧ repoAlpha ∈ registryG.repos ∧
    repoAlpha.enumerationBreaks ∧
    (markPhase MapOrder.insertion registryG).2
      = some { pathNotFound := false, text := "disk failure" } ∧
    ∃ e, (markPhase MapOrder.insertion registryG).2 = some e ∧
      Stats MapOrder.insertion registryG
        = (none, some (errorf ("failed to mark: " ++ e.text))) :=
  ⟨rfl, List.mem_singleton.mpr rfl, Or.inr ⟨_, rfl, rfl⟩, by decide,
    enumeration_failure_aborts MapOrder.insertion registryG repoAlpha rfl
      (List.mem_singleton.mpr rfl) (Or.inr ⟨_, rfl, rfl⟩)⟩

/-- C9, no partial report: `Stats` returns either a report and no error or an
error and no report; when the blob enumerator fails it returns an error and no
report, also when marking had completed. -/
theorem Stats_report_xor_error (ord : MapOrder) (registry : Namespace) :
    ((∃ rep, Stats ord registry = (some rep, none)) ∨
      (∃ e, Stats ord registry = (none, some e))) ∧
    (∀ e, registry.blobsEnd = some e → ∃ e', Stats ord registry = (none, some e')) ∧
    (∀ e, registry.blobsEnd = some e → (markPhase ord registry).2 = none →
      registry.isRepositoryEnumerator = true →
      Stats ord registry = (none, some (errorf ("error enumerating blobs: " ++ e.text)))) := by
  refine ⟨?_, ?_, ?_⟩
  · by_cases hr : registry.runs
    · exact Or.inl ⟨_, Stats_of_runs ord registry hr⟩
    · exact Or.inr (Stats_of_not_runs ord registry hr)
  · intro e he
    apply Stats_of_not_runs
    rintro ⟨_, _, _, hb⟩
    rw [he] at hb
    cases hb
  · intro e he hm hen
    simp [Stats, he, hm, hen]

/-- The blob enumerator fails on `registryI` after a complete marking: the run
returns the enumeration error and no report. -/
theorem Stats_report_xor_error_witness :
    (markPhase MapOrder.insertion registryI).2 = none ∧
    Stats MapOrder.insertion registryI
      = (none, some (errorf ("error enumerating blobs: " ++ "listing failed"))) :=
  ⟨by decide,
    (Stats_report_xor_error MapOrder.insertion registryI).2.2
      { pathNotFound := false, text := "listing failed" } rfl (by decide) rfl⟩

/-- C10, tag table contract: when no operation of the store fails, `Stats`
returns a report whose tag table for every repository has an entry for every
tag name the tag listing returned; the entry is the digest of the last
manifest, in enumeration order, whose reverse lookup contains the tag, and nil
when no enumerated manifest's lookup contains it. -/
theorem tag_table_contract (ord : MapOrder) (registry : Namespace) (hno : registry.noFail) :
    ∃ rep, Stats ord registry = (some rep, none) ∧
      ∀ i r, registry.repos[i]? = some r →
        ∃ tbl, handleGet rep.Tags i = some tbl ∧
          ∀ t ∈ r.tagsAll.1, mapGet tbl t = some (r.lastWriter t) := by
  refine ⟨_, Stats_of_runs ord registry (runs_of_noFail registry hno), ?_⟩
  intro i r hi
  refine ⟨r.tagTable, ?_, fun t ht => mapGet_tagTable r t ht⟩
  simp [Namespace.report, handleGet_report, hi]

/-- The tag table contract on `registryA`: `v1` is bound to `m1`, `v2` to nil. -/
theorem tag_table_contract_witness :
    registryA.noFail ∧
    ∃ rep, Stats MapOrder.insertion registryA = (some rep, none) ∧
      ∀ i r, registryA.repos[i]? = some r →
        ∃ tbl, handleGet rep.Tags i = some tbl ∧
          ∀ t ∈ r.tagsAll.1, mapGet tbl t = some (r.lastWriter t) :=
  ⟨by decide, tag_table_contract MapOrder.insertion registryA (by decide)⟩

/-! ## Rendering -/

theorem andThen_ok (a b : Printed) (h : (a.andThen b).panicked = false) :
    a.panicked = false ∧ b.panicked = false ∧ (a.andThen b).lines = a.lines ++ b.lines := by
  unfold Printed.andThen at h ⊢
  cases ha : a.panicked with
  | true => simp [ha] at h
  | false => simpa [ha] using h

theorem printEach_ok {α : Type} (f : α → Printed) (l : List α)
    (h : (printEach f l).panicked = false) (a : α) (ha : a ∈ l) :
    (f a).panicked = false ∧ ∀ s ∈ (f a).lines, s ∈ (printEach f l).lines := by
  induction l with
  | nil => cases ha
  | cons b rest ih =>
    unfold printEach at h ⊢
    obtain ⟨h1, h2, h3⟩ := andThen_ok _ _ h
    rw [h3]
    rcases List.mem_cons.mp ha with rfl | ha
    · exact ⟨h1, fun s hs => List.mem_append_left _ hs⟩
    · exact ⟨(ih h2 ha).1, fun s hs => List.mem_append_right _ ((ih h2 ha).2 s hs)⟩

theorem mem_of_mapGet {α : Type} (m : List (String × α)) (k : String) (v : α)
    (h : mapGet m k = some v) : (k, v) ∈ m := by
  induction m with
  | nil => simp [mapGet] at h
  | cons p rest ih =>
    obtain ⟨a, b⟩ := p
    unfold mapGet at h
    by_cases hk : a = k
    · rw [if_pos hk] at h
      cases h
      subst hk
      exact List.mem_cons_self _ _
    · rw [if_neg hk] at h
      exact List.mem_cons_of_mem _ (ih h)

theorem mem_handlesFrom {α β : Type} (f : α → β) (rs : List α) (h i : Nat) (a : α)
    (hi : rs[i]? = some a) : (h + i, f a) ∈ handlesFrom f h rs := by
  induction rs generalizing h i with
  | nil => simp at hi
  | cons b rest ih =>
    cases i with
    | zero =>
      simp only [List.getElem?_cons_zero, Option.some.injEq] at hi
      subst hi
      exact List.mem_cons_self _ _
    | succ n =>
      simp only [List.getElem?_cons_succ] at hi
      have := ih (h + 1) n hi
      rw [show h + 1 + n = h + (n + 1) by omega] at this
      exact List.mem_cons_of_mem _ this

theorem lastWriter_none (r : Repository) (t : String)
    (h : ∀ d ∈ r.manifests, t ∉ r.tagsOf d) : r.lastWriter t = none := by
  unfold Repository.lastWriter
  have : r.manifests.filter (fun d => decide (t ∈ r.tagsOf d)) = [] := by
    rw [List.filter_eq_nil_iff]
    intro d hd
    simpa using h d hd
  rw [this]
  rfl

/-- C11, scenario D: when nothing makes the run abort and a listed tag `t` of
the repository with handle `i` is in the reverse lookup of none of its
enumerated manifests, `Stats` returns a report in which the entry of `t` is nil;
`Print` renders that entry as the one line `<repo>:<tag>@missing`, with no size
and with no manifest handed to `Get`, and the line is in the output of every
run of `Print` that returns. -/
theorem missing_tag_rendered (ord : MapOrder) (po : PrintOrder) (fmtF : FloatFmt)
    (registry : Namespace) (i : Nat) (r : Repository) (t : String)
    (hruns : registry.runs) (hi : registry.repos[i]? = some r) (ht : t ∈ r.tagsAll.1)
    (hnone : ∀ d ∈ r.manifests, t ∉ r.tagsOf d) :
    ∃ rep, Stats ord registry = (some rep, none) ∧
      (∃ tbl, handleGet rep.Tags i = some tbl ∧ mapGet tbl t = some none) ∧
      printTag fmtF r (t, none)
        = { lines := ["      " ++ r.name ++ ":" ++ t ++ "@" ++ "missing"],
            fetched := [], panicked := false } ∧
      ((Print po fmtF registry rep).panicked = false →
        ("      " ++ r.name ++ ":" ++ t ++ "@" ++ "missing")
          ∈ (Print po fmtF registry rep).lines) := by
  have hget : mapGet r.tagTable t = some none := by
    rw [mapGet_tagTable r t ht, lastWriter_none r t hnone]
  refine ⟨_, Stats_of_runs ord registry hruns, ⟨r.tagTable, ?_, hget⟩, rfl, ?_⟩
  · simp [Namespace.report, handleGet_report, hi]
  · intro hp
    unfold Print at hp ⊢
    obtain ⟨_, h2, h3⟩ := andThen_ok _ _ hp
    obtain ⟨h4, _, h6⟩ := andThen_ok _ _ h2
    rw [h3, h6]
    apply List.mem_append_right
    apply List.mem_append_left
    have hmem : (i, r.tagTable) ∈ po.repos (registry.report ord).Tags := by
      rw [(po.repos_perm _).mem_iff]
      simpa using mem_handlesFrom Repository.tagTable registry.repos 0 i r hi
    obtain ⟨h7, h8⟩ := printEach_ok _ _ h4 _ hmem
    apply h8
    unfold printRepo at h7 ⊢
    simp only [hi] at h7 ⊢
    obtain ⟨_, h10, h11⟩ := andThen_ok _ _ h7
    obtain ⟨_, h13, h14⟩ := andThen_ok _ _ h10
    obtain ⟨h15, _, h17⟩ := andThen_ok _ _ h13
    rw [h11, h14, h17]
    apply List.mem_append_right
    apply List.mem_append_right
    apply List.mem_append_left
    have htag : (t, none) ∈ po.tags r.tagTable := by
      rw [(po.tags_perm _).mem_iff]
      exact mem_of_mapGet _ _ _ hget
    exact (printEach_ok _ _ h15 _ htag).2 _ (List.mem_singleton.mpr rfl)

set_option maxRecDepth 20000 in
/-- Scenario D on `registryA`, whose tag `v2` resolves to no enumerated manifest. -/
theorem missing_tag_rendered_witness :
    registryA.runs ∧
    (Print PrintOrder.insertion fmtFloat1 registryA
        { Untagged := [(0, [("m1", false), ("m2", true)])], OrphanBlobs := ["b3", "m2", "x"],
          Tags := [(0, [("v1", some "m1"), ("v2", none)])] }
      = { lines := ["repos:", "  a:", "    tags:", "      a:v1@m1, size: 2 B",
            "      a:v2@missing", "    untagged:", "      a@m2, size: 1 B", "orphan:",
            "  b3, size: 1 B", "  m2, size: 1 B", "  x, size: 1 B"],
          fetched := ["m1", "m2"], panicked := false }) ∧
    ∃ rep, Stats MapOrder.insertion registryA = (some rep, none) ∧
      (∃ tbl, handleGet rep.Tags 0 = some tbl ∧ mapGet tbl "v2" = some none) ∧
      printTag fmtFloat1 (sampleRepo "a" ["v1", "v2"]
          [("m1", ["v1"], ["b1", "b2"]), ("m2", [], ["b3"])]) ("v2", none)
        = { lines := ["      " ++ "a" ++ ":" ++ "v2" ++ "@" ++ "missing"],
            fetched := [], panicked := false } ∧
      ((Print PrintOrder.insertion fmtFloat1 registryA rep).panicked = false →
        ("      " ++ "a" ++ ":" ++ "v2" ++ "@" ++ "missing")
          ∈ (Print PrintOrder.insertion fmtFloat1 registryA rep).lines) :=
  ⟨by decide, by decide,
    missing_tag_rendered MapOrder.insertion PrintOrder.insertion fmtFloat1 registryA 0
      (sampleRepo "a" ["v1", "v2"] [("m1", ["v1"], ["b1", "b2"]), ("m2", [], ["b3"])]) "v2"
      (by decide) rfl (by decide) (by decide)⟩

/-! ## The live set as a set -/

theorem mem_liveSet_of_noFail (ord : MapOrder) (registry : Namespace) (hno : registry.noFail)
    (x : Digest) : x ∈ liveSet ord registry ↔ ∃ r ∈ registry.repos, r.marks x := by
  rw [mem_liveSet ord registry (runs_of_noFail registry hno).2.2.1]
  constructor
  · rintro ⟨r, hr, hx⟩
    exact ⟨r, hr, marked_imp_marks r x hx⟩
  · rintro ⟨r, hr, hx⟩
    exact ⟨r, hr, marks_imp_marked r x (hno.2.2.2 r hr).2.2.2.1 hx⟩

theorem sweep_congr (ms ms' blobs : List Digest) (h : ∀ y, y ∈ ms ↔ y ∈ ms') :
    sweep ms blobs = sweep ms' blobs := by
  rw [sweep_eq_filter, sweep_eq_filter]
  apply List.filter_congr
  intro y _
  simp [h y]

theorem addReference_getFails (r : Repository) (d : Digest) (x : Descriptor) (d' : Digest) :
    (r.addReference d x).getFails d' = r.getFails d' := by
  unfold Repository.getFails Repository.addReference
  by_cases hd : d' = d
  · simp only [hd, if_true]
    cases r.get d <;> rfl
  · simp only [hd, if_false]

theorem addReference_refsOf (r : Repository) (d : Digest) (x : Descriptor) (d' : Digest)
    (y : Digest) :
    (y ∈ (r.addReference d x).refsOf d' → y ∈ r.refsOf d' ∨ y = x.Digest) ∧
    (y ∈ r.refsOf d' → y ∈ (r.addReference d x).refsOf d') := by
  unfold Repository.refsOf Repository.addReference
  by_cases hd : d' = d
  · simp only [hd, if_true]
    cases r.get d with
    | error e => simp
    | ok descriptors =>
      simp only [List.map_append, List.mem_append, List.map_cons, List.map_nil,
        List.mem_singleton]
      exact ⟨fun h => h, fun h => Or.inl h⟩
  · simp only [hd, if_false]
    exact ⟨fun h => Or.inl h, fun h => h⟩

theorem addReference_noFail (r : Repository) (d : Digest) (x : Descriptor) (h : r.noFail) :
    (r.addReference d x).noFail := by
  obtain ⟨h1, h2, h3, h4, h5⟩ := h
  refine ⟨h1, h2, h3, h4, ?_⟩
  intro d' hd' ht
  rw [addReference_getFails]
  exact h5 d' hd' ht

theorem addReference_marks (r : Repository) (d : Digest) (x : Descriptor) (y : Digest) :
    ((r.addReference d x).marks y → r.marks y ∨ y = x.Digest) ∧
    (r.marks y → (r.addReference d x).marks y) := by
  constructor
  · rintro ⟨m, hm, ht, hy | hy⟩
    · exact Or.inl ⟨m, hm, ht, Or.inl hy⟩
    · rcases (addReference_refsOf r d x m y).1 hy with h | h
      · exact Or.inl ⟨m, hm, ht, Or.inr h⟩
      · exact Or.inr h
  · rintro ⟨m, hm, ht, hy | hy⟩
    · exact ⟨m, hm, ht, Or.inl hy⟩
    · exact ⟨m, hm, ht, Or.inr ((addReference_refsOf r d x m y).2 hy)⟩

/-- C12, shared layer: when no operation of the store fails and `X` is declared
as a reference by a tagged manifest of some repository, wherever it stands in
the enumeration, `X` is not in `OrphanBlobs`; and declaring `X` once more, in
the body of a manifest of any repository, changes neither the members of the
live set nor the orphan list. -/
theorem shared_layer (ord : MapOrder) (registry : Namespace) (pre post : List Repository)
    (r : Repository) (d : Digest) (x : Descriptor) (hno : registry.noFail)
    (hrepos : registry.repos = pre ++ r :: post)
    (hshared : ∃ q ∈ registry.repos, ∃ m ∈ q.manifests,
      q.tagsOf m ≠ [] ∧ x.Digest ∈ q.refsOf m) :
    ∃ rep rep', Stats ord registry = (some rep, none) ∧
      Stats ord { registry with repos := pre ++ r.addReference d x :: post }
        = (some rep', none) ∧
      x.Digest ∉ rep.OrphanBlobs ∧ x.Digest ∉ rep'.OrphanBlobs ∧
      (∀ y, y ∈ liveSet ord { registry with repos := pre ++ r.addReference d x :: post }
        ↔ y ∈ liveSet ord registry) ∧
      rep'.OrphanBlobs = rep.OrphanBlobs := by
  have hno' : Namespace.noFail { registry with repos := pre ++ r.addReference d x :: post } := by
    refine ⟨hno.1, hno.2.1, hno.2.2.1, ?_⟩
    intro q hq
    have hall := hno.2.2.2
    rw [hrepos] at hall
    rcases List.mem_append.mp hq with hq | hq
    · exact hall q (List.mem_append_left _ hq)
    · rcases List.mem_cons.mp hq with rfl | hq
      · exact addReference_noFail r d x
          (hall r (List.mem_append_right _ (List.mem_cons_self _ _)))
      · exact hall q (List.mem_append_right _ (List.mem_cons_of_mem _ hq))
  have hlive : x.Digest ∈ liveSet ord registry := by
    rw [mem_liveSet_of_noFail ord registry hno]
    obtain ⟨q, hq, m, hm, ht, hx⟩ := hshared
    exact ⟨q, hq, m, hm, ht, Or.inr hx⟩
  have hiff : ∀ y,
      y ∈ liveSet ord { registry with repos := pre ++ r.addReference d x :: post }
        ↔ y ∈ liveSet ord registry := by
    intro y
    rw [mem_liveSet_of_noFail ord _ hno', mem_liveSet_of_noFail ord registry hno, hrepos]
    constructor
    · rintro ⟨q, hq, hy⟩
      rcases List.mem_append.mp hq with hq | hq
      · exact ⟨q, List.mem_append_left _ hq, hy⟩
      · rcases List.mem_cons.mp hq with rfl | hq
        · rcases (addReference_marks r d x y).1 hy with h | h
          · exact ⟨r, List.mem_append_right _ (List.mem_cons_self _ _), h⟩
          · have := (mem_liveSet_of_noFail ord registry hno x.Digest).mp hlive
            rw [hrepos, ← h] at this
            exact this
        · exact ⟨q, List.mem_append_right _ (List.mem_cons_of_mem _ hq), hy⟩
    · rintro ⟨q, hq, hy⟩
      rcases List.mem_append.mp hq with hq | hq
      · exact ⟨q, List.mem_append_left _ hq, hy⟩
      · rcases List.mem_cons.mp hq with rfl | hq
        · exact ⟨_, List.mem_append_right _ (List.mem_cons_self _ _),
            (addReference_marks q d x y).2 hy⟩
        · exact ⟨q, List.mem_append_right _ (List.mem_cons_of_mem _ hq), hy⟩
  refine ⟨_, _, Stats_of_runs ord registry (runs_of_noFail registry hno),
    Stats_of_runs ord _ (runs_of_noFail _ hno'), ?_, ?_, hiff, ?_⟩
  · simp only [Namespace.report, mem_sweep]
    exact fun h => h.2 hlive
  · simp only [Namespace.report, mem_sweep]
    exact fun h => h.2 ((hiff _).mpr hlive)
  · simp only [Namespace.report]
    exact sweep_congr _ _ _ hiff

/-- The shared layer on `registryK`: `x`, referenced from the first repository,
is referenced once more from the manifest `m3` of the last. -/
theorem shared_layer_witness :
    registryK.noFail ∧
    (∃ q ∈ registryK.repos, ∃ m ∈ q.manifests, q.tagsOf m ≠ [] ∧ "x" ∈ q.refsOf m) ∧
    ∃ rep rep', Stats MapOrder.reversed registryK = (some rep, none) ∧
      Stats MapOrder.reversed
        { registryK with
          repos := [sampleRepo "a" ["v1"] [("m1", ["v1"], ["b1", "x"])]] ++
            (sampleRepo "c" ["w"] [("m3", ["w"], ["b4"])]).addReference "m3"
              { Digest := "x", Size := 7 } :: [] }
        = (some rep', none) ∧
      "x" ∉ rep.OrphanBlobs ∧ "x" ∉ rep'.OrphanBlobs ∧
      (∀ y, y ∈ liveSet MapOrder.reversed
          { registryK with
            repos := [sampleRepo "a" ["v1"] [("m1", ["v1"], ["b1", "x"])]] ++
              (sampleRepo "c" ["w"] [("m3", ["w"], ["b4"])]).addReference "m3"
                { Digest := "x", Size := 7 } :: [] }
        ↔ y ∈ liveSet MapOrder.reversed registryK) ∧
      rep'.OrphanBlobs = rep.OrphanBlobs :=
  ⟨by decide, by decide,
    shared_layer MapOrder.reversed registryK
      [sampleRepo "a" ["v1"] [("m1", ["v1"], ["b1", "x"])]] []
      (sampleRepo "c" ["w"] [("m3", ["w"], ["b4"])]) "m3" { Digest := "x", Size := 7 }
      (by decide) rfl (by decide)⟩

/-- C15, orphan order: when `Stats` returns a report, `OrphanBlobs` is the
sequence of the digests the blob enumerator visited, in the order visited, with
the members of the live set removed. -/
theorem OrphanBlobs_order (ord : MapOrder) (registry : Namespace) (rep : StatsResults)
    (hrep : Stats ord registry = (some rep, none)) :
    rep.OrphanBlobs
      = registry.blobs.filter (fun d => decide (d ∉ liveSet ord registry)) := by
  obtain ⟨_, rfl⟩ := runs_of_Stats ord registry rep (by rw [hrep])
  simp only [Namespace.report, sweep_eq_filter]

/-- The orphan order on `registryA`. -/
theorem OrphanBlobs_order_witness :
    ["b3", "m2", "x"]
      = registryA.blobs.filter (fun d => decide (d ∉ liveSet MapOrder.insertion registryA)) :=
  OrphanBlobs_order MapOrder.insertion registryA
    { Untagged := [(0, [("m1", false), ("m2", true)])], OrphanBlobs := ["b3", "m2", "x"],
      Tags := [(0, [("v1", some "m1"), ("v2", none)])] } (by decide)

/-! ## The live set as a list -/

theorem nodup_foldl_markTagged (r : Repository) (ds s : List Digest) (h : s.Nodup) :
    (ds.foldl r.markTagged s).Nodup := by
  induction ds generalizing s with
  | nil => exact h
  | cons d rest ih =>
    rw [List.foldl_cons]
    apply ih
    unfold Repository.markTagged
    split
    · exact h
    · exact h.insert

theorem nodup_foldl_insert_digest (descriptors : List Descriptor) (ms : List Digest)
    (h : ms.Nodup) : (descriptors.foldl (fun s d => s.insert d.Digest) ms).Nodup := by
  induction descriptors generalizing ms with
  | nil => exact h
  | cons d rest ih =>
    rw [List.foldl_cons]
    exact ih _ h.insert

theorem nodup_markReferences (r : Repository) (l : UntaggedMap) (ms : List Digest)
    (h : ms.Nodup) : (markReferences r l ms).1.Nodup := by
  induction l generalizing ms with
  | nil => exact h
  | cons p rest ih =>
    obtain ⟨d, u⟩ := p
    cases u with
    | true => simpa [markReferences] using ih ms h
    | false =>
      cases hg : r.get d with
      | error e => simpa [markReferences, hg] using h
      | ok descriptors =>
        simpa [markReferences, hg] using ih _ (nodup_foldl_insert_digest descriptors ms h)

theorem nodup_visitRepo (ord : MapOrder) (h : Nat) (r : Repository) (st : MarkState)
    (hv : r.visitOk) (hst : st.markSet.Nodup) : (visitRepo ord h r st).1.markSet.Nodup := by
  obtain ⟨ho, hl, _⟩ := hv
  rw [visitRepo_of_opens ord h r st ho]
  by_cases hp : isPathNotFound r.manifestsEnd = true
  · rw [markRepository_missing ord h r st hl hp]
    exact nodup_foldl_markTagged r _ _ hst
  · rw [markRepository_full ord h r st hl (by simpa using hp)]
    exact nodup_markReferences r _ _ (nodup_foldl_markTagged r _ _ hst)

theorem nodup_enumerateRepos (ord : MapOrder) (fin : Option Err) (rs : List Repository)
    (h : Nat) (st : MarkState) (hv : ∀ r ∈ rs, r.visitOk) (hst : st.markSet.Nodup) :
    (enumerateRepos ord fin rs h st).1.markSet.Nodup := by
  induction rs generalizing h st with
  | nil => exact hst
  | cons r rest ih =>
    have hk : r.visitOk := hv r (List.mem_cons_self _ _)
    have hn := (visitRepo_none_iff ord h r st).mpr hk
    have hnd := nodup_visitRepo ord h r st hk hst
    unfold enumerateRepos
    rcases hvr : visitRepo ord h r st with ⟨st1, o⟩
    rw [hvr] at hn hnd
    simp only at hn hnd
    subst hn
    exact ih (h + 1) st1 (fun x hx => hv x (List.mem_cons_of_mem _ hx)) hnd

theorem nodup_liveSet (ord : MapOrder) (registry : Namespace)
    (hv : ∀ r ∈ registry.repos, r.visitOk) : (liveSet ord registry).Nodup := by
  unfold liveSet markPhase
  exact nodup_enumerateRepos ord _ _ _ _ hv List.nodup_nil

/-- C13, scenario B: for a store with one repository whose one enumerated
manifest `D` has an empty reverse lookup, `Stats` returns a report in which the
tag table is the tag listing with every tag unresolved (no entry is bound to
`D`), the untagged map flags exactly `D`, the live set is empty, so that no
reference of `D` is in it, and every reference of `D` that is in the blob
population is in `OrphanBlobs`. -/
theorem scenario_B (ord : MapOrder) (registry : Namespace) (r : Repository) (D : Digest)
    (henum : registry.isRepositoryEnumerator = true) (hend : registry.reposEnd = none)
    (hblobs : registry.blobsEnd = none) (hrepos : registry.repos = [r])
    (hopen : r.opens) (hmend : r.manifestsEnd = none) (hms : r.manifests = [D])
    (hl : r.lookup D = .ok []) :
    ∃ rep, Stats ord registry = (some rep, none) ∧
      rep.Tags = [(0, listedTags r)] ∧
      (∀ t, mapGet (listedTags r) t = if t ∈ r.tagsAll.1 then some none else none) ∧
      rep.Untagged = [(0, [(D, true)])] ∧
      liveSet ord registry = [] ∧
      (∀ x ∈ r.refsOf D, x ∉ liveSet ord registry ∧ (x ∈ registry.blobs → x ∈ rep.OrphanBlobs)) := by
  have ht : r.tagsOf D = [] := by simp [Repository.tagsOf, hl]
  have hv : r.visitOk := by
    refine ⟨hopen, ?_, Or.inr ⟨hmend, ?_⟩⟩
    · intro d hd
      rw [hms, List.mem_singleton] at hd
      subst hd
      simp [Repository.lookupFails, hl]
    · intro d hd htd
      rw [hms, List.mem_singleton] at hd
      subst hd
      exact absurd ht htd
  have hall : ∀ q ∈ registry.repos, q.visitOk := by
    intro q hq
    rw [hrepos, List.mem_singleton] at hq
    subst hq
    exact hv
  have hlive : liveSet ord registry = [] := by
    rw [List.eq_nil_iff_forall_not_mem]
    intro x hx
    rw [mem_liveSet ord registry hall] at hx
    obtain ⟨q, hq, hx⟩ := hx
    rw [hrepos, List.mem_singleton] at hq
    subst hq
    obtain ⟨m, hm, htm, _⟩ := marked_imp_marks q x hx
    rw [hms, List.mem_singleton] at hm
    subst hm
    exact htm ht
  refine ⟨_, Stats_of_runs ord registry ⟨henum, hend, hall, hblobs⟩, ?_, mapGet_listedTags r,
    ?_, hlive, ?_⟩
  · simp [Namespace.report, hrepos, handlesFrom, Repository.tagTable, hms, Repository.bindTags,
      ht]
  · simp [Namespace.report, hrepos, handlesFrom, Repository.untaggedMap, hms, ht]
  · intro x _
    refine ⟨by simp [hlive], fun hb => ?_⟩
    simp only [Namespace.report, mem_sweep, hlive]
    exact ⟨hb, List.not_mem_nil _⟩

/-- Scenario B on `registryB`. -/
theorem scenario_B_witness :
    (sampleRepo "a" [] [("m2", [], ["b3"])]).opens ∧
    ∃ rep, Stats MapOrder.insertion registryB = (some rep, none) ∧
      rep.Tags = [(0, listedTags (sampleRepo "a" [] [("m2", [], ["b3"])]))] ∧
      (∀ t, mapGet (listedTags (sampleRepo "a" [] [("m2", [], ["b3"])])) t
        = if t ∈ (sampleRepo "a" [] [("m2", [], ["b3"])]).tagsAll.1 then some none else none) ∧
      rep.Untagged = [(0, [("m2", true)])] ∧
      liveSet MapOrder.insertion registryB = [] ∧
      (∀ x ∈ (sampleRepo "a" [] [("m2", [], ["b3"])]).refsOf "m2",
        x ∉ liveSet MapOrder.insertion registryB ∧
          (x ∈ registryB.blobs → x ∈ rep.OrphanBlobs)) :=
  ⟨by decide,
    scenario_B MapOrder.insertion registryB (sampleRepo "a" [] [("m2", [], ["b3"])]) "m2"
      rfl rfl rfl rfl (by decide) rfl rfl rfl⟩

/-- C14, scenario A: for a store with one repository and two manifests, each
with one tag and each referencing three blobs, the eight digests being pairwise
distinct, `Stats` returns a report, the live set has exactly eight elements,
the two manifests and the six blobs, and `OrphanBlobs` is empty when the blob
population is those eight digests. -/
theorem scenario_A (ord : MapOrder) (registry : Namespace) (r : Repository)
    (m1 m2 : Digest) (t1 t2 : String) (a1 a2 a3 b1 b2 b3 : Descriptor)
    (henum : registry.isRepositoryEnumerator = true) (hend : registry.reposEnd = none)
    (hblobs : registry.blobsEnd = none) (hrepos : registry.repos = [r])
    (hopen : r.opens) (hmend : r.manifestsEnd = none) (hms : r.manifests = [m1, m2])
    (hl1 : r.lookup m1 = .ok [t1]) (hl2 : r.lookup m2 = .ok [t2])
    (hg1 : r.get m1 = .ok [a1, a2, a3]) (hg2 : r.get m2 = .ok [b1, b2, b3])
    (hnd : [m1, m2, a1.Digest, a2.Digest, a3.Digest, b1.Digest, b2.Digest, b3.Digest].Nodup) :
    ∃ rep, Stats ord registry = (some rep, none) ∧
      (liveSet ord registry).length = 8 ∧
      (∀ x, x ∈ liveSet ord registry ↔
        x ∈ [m1, m2, a1.Digest, a2.Digest, a3.Digest, b1.Digest, b2.Digest, b3.Digest]) ∧
      ((∀ x, x ∈ registry.blobs ↔
          x ∈ [m1, m2, a1.Digest, a2.Digest, a3.Digest, b1.Digest, b2.Digest, b3.Digest]) →
        rep.OrphanBlobs = []) := by
  have ht1 : r.tagsOf m1 = [t1] := by simp [Repository.tagsOf, hl1]
  have ht2 : r.tagsOf m2 = [t2] := by simp [Repository.tagsOf, hl2]
  have hr1 : r.refsOf m1 = [a1.Digest, a2.Digest, a3.Digest] := by
    simp [Repository.refsOf, hg1]
  have hr2 : r.refsOf m2 = [b1.Digest, b2.Digest, b3.Digest] := by
    simp [Repository.refsOf, hg2]
  have hv : r.visitOk := by
    refine ⟨hopen, ?_, Or.inr ⟨hmend, ?_⟩⟩
    · intro d hd
      rw [hms] at hd
      simp only [List.mem_cons, List.mem_singleton, List.not_mem_nil, or_false] at hd
      rcases hd with rfl | rfl
      · simp [Repository.lookupFails, hl1]
      · simp [Repository.lookupFails, hl2]
    · intro d hd _
      rw [hms] at hd
      simp only [List.mem_cons, List.mem_singleton, List.not_mem_nil, or_false] at hd
      rcases hd with rfl | rfl
      · simp [Repository.getFails, hg1]
      · simp [Repository.getFails, hg2]
  have hall : ∀ q ∈ registry.repos, q.visitOk := by
    intro q hq
    rw [hrepos, List.mem_singleton] at hq
    subst hq
    exact hv
  have hmem : ∀ x, x ∈ liveSet ord registry ↔
      x ∈ [m1, m2, a1.Digest, a2.Digest, a3.Digest, b1.Digest, b2.Digest, b3.Digest] := by
    intro x
    rw [mem_liveSet ord registry hall, hrepos]
    constructor
    · rintro ⟨q, hq, hx⟩
      rw [List.mem_singleton] at hq
      subst hq
      rcases hx with ⟨hx, _⟩ | ⟨_, d, hd, _, hxd⟩
      · rw [hms] at hx
        simp only [List.mem_cons, List.mem_singleton, List.not_mem_nil, or_false] at hx ⊢
        tauto
      · rw [hms] at hd
        simp only [List.mem_cons, List.mem_singleton, List.not_mem_nil, or_false] at hd
        rcases hd with rfl | rfl
        · rw [hr1] at hxd
          simp only [List.mem_cons, List.mem_singleton, List.not_mem_nil, or_false] at hxd ⊢
          tauto
        · rw [hr2] at hxd
          simp only [List.mem_cons, List.mem_singleton, List.not_mem_nil, or_false] at hxd ⊢
          tauto
    · intro hx
      refine ⟨r, List.mem_singleton.mpr rfl, ?_⟩
      simp only [List.mem_cons, List.mem_singleton, List.not_mem_nil, or_false] at hx
      rcases hx with rfl | rfl | h | h | h | h | h | h
      · exact Or.inl ⟨by simp [hms], by simp [ht1]⟩
      · exact Or.inl ⟨by simp [hms], by simp [ht2]⟩
      · exact Or.inr ⟨hmend, m1, by simp [hms], by simp [ht1], by simp [hr1, h]⟩
      · exact Or.inr ⟨hmend, m1, by simp [hms], by simp [ht1], by simp [hr1, h]⟩
      · exact Or.inr ⟨hmend, m1, by simp [hms], by simp [ht1], by simp [hr1, h]⟩
      · exact Or.inr ⟨hmend, m2, by simp [hms], by simp [ht2], by simp [hr2, h]⟩
      · exact Or.inr ⟨hmend, m2, by simp [hms], by simp [ht2], by simp [hr2, h]⟩
      · exact Or.inr ⟨hmend, m2, by simp [hms], by simp [ht2], by simp [hr2, h]⟩
  refine ⟨_, Stats_of_runs ord registry ⟨henum, hend, hall, hblobs⟩, ?_, hmem, ?_⟩
  · have hperm := (List.perm_ext_iff_of_nodup (nodup_liveSet ord registry hall) hnd).mpr hmem
    rw [hperm.length_eq]
    rfl
  · intro hpop
    simp only [Namespace.report, sweep_eq_filter, List.filter_eq_nil_iff]
    intro x hx
    simpa using (hmem x).mpr ((hpop x).mp hx)

/-- Scenario A on `registryL`. -/
theorem scenario_A_witness :
    [("m1" : Digest), "m2", "a1", "a2", "a3", "b1", "b2", "b3"].Nodup ∧
    ∃ rep, Stats MapOrder.reversed registryL = (some rep, none) ∧
      (liveSet MapOrder.reversed registryL).length = 8 ∧
      (∀ x, x ∈ liveSet MapOrder.reversed registryL ↔
        x ∈ ["m1", "m2", "a1", "a2", "a3", "b1", "b2", "b3"]) ∧
      ((∀ x, x ∈ registryL.blobs ↔
          x ∈ ["m1", "m2", "a1", "a2", "a3", "b1", "b2", "b3"]) →
        rep.OrphanBlobs = []) :=
  ⟨by decide,
    scenario_A MapOrder.reversed registryL
      (sampleRepo "a" ["v1", "v2"]
        [("m1", ["v1"], ["a1", "a2", "a3"]), ("m2", ["v2"], ["b1", "b2", "b3"])])
      "m1" "m2" "v1" "v2"
      { Digest := "a1", Size := 1 } { Digest := "a2", Size := 1 } { Digest := "a3", Size := 1 }
      { Digest := "b1", Size := 1 } { Digest := "b2", Size := 1 } { Digest := "b3", Size := 1 }
      rfl rfl rfl rfl (by decide) rfl rfl rfl rfl rfl rfl (by decide)⟩

/-- C16 fails on `registryJ` and on `registryF`.  The run of `Stats` on
`registryJ` returns a report that flags `m2` as untagged; the body of `m2`
cannot be fetched, and `Print` writes the error and panics before the entry of
`m2` and the orphan list are written.  On `registryF` the same happens for the
tag `v1`, which a report binds to the manifest `m1`. -/
theorem Print_panics_on_failed_fetch :
    Stats MapOrder.insertion registryJ
      = (some { Untagged := [(0, [("m2", true)])], OrphanBlobs := ["b3"],
                Tags := [(0, [])] }, none) ∧
    Print PrintOrder.insertion fmtFloat1 registryJ
        { Untagged := [(0, [("m2", true)])], OrphanBlobs := ["b3"], Tags := [(0, [])] }
      = { lines := ["repos:", "  a:", "    tags:", "    untagged:", "manifest unknown"],
          fetched := ["m2"], panicked := true } ∧
    Print PrintOrder.insertion fmtFloat1 registryF
        { Untagged := [(0, [("m1", false)])], OrphanBlobs := ["b1"],
          Tags := [(0, [("v1", some "m1")])] }
      = { lines := ["repos:", "  a:", "    tags:", "manifest unknown"],
          fetched := ["m1"], panicked := true } := by
  decide

/-- C18 fails on `registryD`: the manifest enumeration of its repository visits
`m1`, whose reverse lookup returns `v1`, and then ends with path-not-found.
The run returns a report that flags `m1` as tagged and binds `v1` to it; `b1`,
the reference the body of `m1` declares, is not in the live set and is listed
in `OrphanBlobs`. -/
theorem tagged_reference_orphaned_registryD :
    isPathNotFound repoMissing.manifestsEnd = true ∧
    Stats MapOrder.insertion registryD
      = (some { Untagged := [(0, [("m1", false)])],
                OrphanBlobs := ["b1"],
                Tags := [(0, [("v1", some "m1"), ("v2", none)])] }, none) ∧
    repoMissing.refsOf "m1" = ["b1"] ∧
    "b1" ∉ liveSet MapOrder.insertion registryD := by
  decide

/-! ## `byteCountBinary` -/

theorem wrap64_of_range (x : Int) (h1 : -2 ^ 63 ≤ x) (h2 : x < 2 ^ 63) : wrap64 x = x := by
  unfold wrap64
  omega

theorem pow1024_le (e : Nat) (h : e ≤ 6) : (1024 : Int) ^ e ≤ 1024 ^ 6 :=
  pow_le_pow_right₀ (by norm_num) h

theorem scaleLoop_spec (b : Int) (j : Nat) :
    ∀ (n div : Int) (exp : Nat), 1 ≤ n → n < 1024 ^ (j + 1) → div = 1024 ^ (exp + 1) →
      exp + j ≤ 5 → div * n ≤ b → b < div * (n + 1) →
      (scaleLoop n div exp).2 ≤ 5 ∧
      (scaleLoop n div exp).1 = 1024 ^ ((scaleLoop n div exp).2 + 1) ∧
      (scaleLoop n div exp).1 ≤ b ∧ b < (scaleLoop n div exp).1 * 1024 := by
  induction j with
  | zero =>
    intro n div exp h1 hn hdiv hj hlo hhi
    have hlt : ¬ n ≥ 1024 := by
      simp only [zero_add, pow_one] at hn
      omega
    have hpos : 0 < div := by rw [hdiv]; positivity
    rw [scaleLoop, if_neg hlt]
    refine ⟨by omega, hdiv, ?_, ?_⟩
    · nlinarith
    · nlinarith
  | succ j ih =>
    intro n div exp h1 hn hdiv hj hlo hhi
    have hpos : 0 < div := by rw [hdiv]; positivity
    by_cases hge : n ≥ 1024
    · rw [scaleLoop, if_pos hge]
      have hmul : div * 1024 = 1024 ^ (exp + 1 + 1) := by rw [hdiv]; ring
      have hbound : div * 1024 ≤ 1024 ^ 6 := by
        rw [hmul]
        exact pow1024_le _ (by omega)
      have hw : wrap64 (div * 1024) = div * 1024 := by
        apply wrap64_of_range
        · nlinarith
        · have : (1024 : Int) ^ 6 < 2 ^ 63 := by norm_num
          omega
      rw [hw, Int.tdiv_eq_ediv (by omega) (by norm_num)]
      apply ih (n / 1024) (div * 1024) (exp + 1) (by omega) ?_ hmul (by omega) ?_ ?_
      · rw [pow_succ] at hn
        omega
      · have : 1024 * (n / 1024) ≤ n := by omega
        nlinarith
      · have : n + 1 ≤ 1024 * (n / 1024 + 1) := by omega
        nlinarith
    · rw [scaleLoop, if_neg hge]
      refine ⟨by omega, hdiv, ?_, ?_⟩
      · nlinarith
      · nlinarith

theorem scaleLoop_int64 (b : Int) (hge : 1024 ≤ b) (hhi : b < 2 ^ 63) :
    (scaleLoop (Int.tdiv b 1024) 1024 0).2 ≤ 5 ∧
    (scaleLoop (Int.tdiv b 1024) 1024 0).1
      = 1024 ^ ((scaleLoop (Int.tdiv b 1024) 1024 0).2 + 1) ∧
    (scaleLoop (Int.tdiv b 1024) 1024 0).1 ≤ b ∧
    b < (scaleLoop (Int.tdiv b 1024) 1024 0).1 * 1024 := by
  rw [Int.tdiv_eq_ediv (by omega) (by norm_num)]
  apply scaleLoop_spec b 5 (b / 1024) 1024 0 (by omega) ?_ (by norm_num) (by omega)
    (by omega) (by omega)
  have : (2 : Int) ^ 63 ≤ 1024 * 1024 ^ (5 + 1) := by norm_num
  omega

theorem units_getElem (e : Nat) (h : e ≤ 5) : ∃ c, "KMGTPE".toList[e]? = some c := by
  interval_cases e <;> exact ⟨_, rfl⟩

theorem byteCountBinary_of_ge (fmtF : FloatFmt) (b : Int) (hge : 1024 ≤ b) (c : Char)
    (hc : "KMGTPE".toList[(scaleLoop (Int.tdiv b 1024) 1024 0).2]? = some c) :
    byteCountBinary fmtF b
      = some (fmtF b (scaleLoop (Int.tdiv b 1024) 1024 0).1 ++ " "
          ++ String.singleton c ++ "iB") := by
  unfold byteCountBinary
  rw [if_neg (by omega)]
  simp only [hc]

theorem pow1024_unique (b : Int) (k k' : Nat) (h1 : (1024 : Int) ^ k ≤ b)
    (h2 : b < 1024 ^ (k + 1)) (h1' : (1024 : Int) ^ k' ≤ b) (h2' : b < 1024 ^ (k' + 1)) :
    k' = k := by
  by_contra hne
  rcases Nat.lt_or_gt_of_ne hne with hlt | hgt
  · have : (1024 : Int) ^ (k' + 1) ≤ 1024 ^ k := pow_le_pow_right₀ (by norm_num) (by omega)
    omega
  · have : (1024 : Int) ^ (k + 1) ≤ 1024 ^ k' := pow_le_pow_right₀ (by norm_num) (by omega)
    omega

/-- The unit `byteCountBinary` chooses, whatever renders the scaled number. -/
theorem byteCountBinary_unit_index (fmtF : FloatFmt) (b : Int) (hhi : b < 2 ^ 63) :
    (0 ≤ b → b < 1024 → byteCountBinary fmtF b = some (toString b ++ " B")) ∧
    (1024 ≤ b →
      ∃ (k : Nat) (c : Char), 1 ≤ k ∧ k ≤ 6 ∧ (1024 : Int) ^ k ≤ b ∧ b < 1024 ^ (k + 1) ∧
        (∀ k' : Nat, (1024 : Int) ^ k' ≤ b → b < 1024 ^ (k' + 1) → k' = k) ∧
        "KMGTPE".toList[k - 1]? = some c ∧
        byteCountBinary fmtF b
          = some (fmtF b (1024 ^ k) ++ " " ++ String.singleton c ++ "iB") ∧
        (1 : ℚ) ≤ (b : ℚ) / 1024 ^ k ∧ (b : ℚ) / 1024 ^ k < 1024) := by
  refine ⟨?_, ?_⟩
  · intro _ hlt
    unfold byteCountBinary
    rw [if_pos hlt]
  · intro hge
    obtain ⟨h5, hdiv, hle, hlt⟩ := scaleLoop_int64 b hge hhi
    obtain ⟨c, hc⟩ := units_getElem _ h5
    have hbcb := byteCountBinary_of_ge fmtF b hge c hc
    generalize scaleLoop (Int.tdiv b 1024) 1024 0 = res at h5 hdiv hle hlt hc hbcb
    have hlo' : (1024 : Int) ^ (res.2 + 1) ≤ b := by rw [← hdiv]; exact hle
    have hhi' : b < (1024 : Int) ^ (res.2 + 1 + 1) := by
      rw [pow_succ, ← hdiv]
      exact hlt
    refine ⟨res.2 + 1, c, by omega, by omega, hlo', hhi', ?_, by simpa using hc, ?_, ?_, ?_⟩
    · intro k' h1' h2'
      exact pow1024_unique b _ k' hlo' hhi' h1' h2'
    · rw [hbcb, hdiv]
    · rw [le_div_iff₀ (by positivity), one_mul]
      exact_mod_cast hlo'
    · rw [div_lt_iff₀ (by positivity)]
      have : (b : ℚ) < (1024 : ℚ) ^ (res.2 + 1 + 1) := by exact_mod_cast hhi'
      rw [pow_succ] at this
      linarith

theorem roundHalfEven_near (num den : Nat) (h : 0 < den) :
    2 * (roundHalfEven num den * den) ≤ 2 * num + den ∧
    2 * num ≤ 2 * (roundHalfEven num den * den) + den := by
  have hdm := Nat.div_add_mod num den
  have hlt := Nat.mod_lt num h
  unfold roundHalfEven
  generalize num / den = q at *
  generalize num % den = r at *
  have hq : q * den = den * q := Nat.mul_comm _ _
  have hq1 : (q + 1) * den = den * q + den := by ring
  generalize den * q = t at *
  split_ifs <;> simp only [hq, hq1] <;> omega

theorem roundHalfEven_bounds (num den : Nat) :
    num / den ≤ roundHalfEven num den ∧ roundHalfEven num den ≤ num / den + 1 := by
  unfold roundHalfEven
  split_ifs <;> omega

theorem bitsFuel_zero (fuel : Nat) : bitsFuel fuel 0 = 0 := by
  cases fuel <;> simp [bitsFuel]

theorem bitsFuel_spec (fuel : Nat) :
    ∀ n, n ≤ fuel → n < 2 ^ bitsFuel fuel n ∧ (n ≠ 0 → 2 ^ (bitsFuel fuel n - 1) ≤ n) := by
  induction fuel with
  | zero =>
    intro n hn
    have : n = 0 := by omega
    subst this
    simp [bitsFuel]
  | succ fuel ih =>
    intro n hn
    by_cases h0 : n = 0
    · subst h0
      simp [bitsFuel]
    · obtain ⟨ih1, ih2⟩ := ih (n / 2) (by omega)
      have hb : bitsFuel (fuel + 1) n = bitsFuel fuel (n / 2) + 1 := by
        simp [bitsFuel, h0]
      rw [hb, Nat.add_sub_cancel, pow_succ]
      refine ⟨by omega, fun _ => ?_⟩
      by_cases h2 : n / 2 = 0
      · rw [h2, bitsFuel_zero]
        simp only [pow_zero]
        omega
      · have hk : bitsFuel fuel (n / 2) ≠ 0 := by
          intro hk
          rw [hk] at ih1
          simp only [pow_zero] at ih1
          omega
        have hp : 2 ^ bitsFuel fuel (n / 2) = 2 ^ (bitsFuel fuel (n / 2) - 1) * 2 := by
          rw [← pow_succ]
          congr 1
          omega
        have := ih2 h2
        omega

theorem bitLength_spec (n : Nat) :
    n < 2 ^ bitLength n ∧ (n ≠ 0 → 2 ^ (bitLength n - 1) ≤ n) :=
  bitsFuel_spec n n (Nat.le_refl n)

theorem roundTo53_spec (n : Nat) :
    ∃ (m e : Nat), roundTo53 n = m * 2 ^ e ∧ m ≤ 2 ^ 53 ∧ (e ≠ 0 → 2 ^ 52 ≤ m) ∧
      2 * (m * 2 ^ e) ≤ 2 * n + 2 ^ e ∧ 2 * n ≤ 2 * (m * 2 ^ e) + 2 ^ e := by
  by_cases hlt : n < 2 ^ 53
  · refine ⟨n, 0, ?_, by omega, fun h => absurd rfl h, ?_, ?_⟩
    · unfold roundTo53
      rw [if_pos hlt, pow_zero, Nat.mul_one]
    · simp
    · simp
  · obtain ⟨hb1, hb2⟩ := bitLength_spec n
    have hn0 : n ≠ 0 := by
      intro h
      rw [h] at hlt
      simp at hlt
    have hb2 := hb2 hn0
    have hbits : 54 ≤ bitLength n := by
      by_contra hcon
      have : 2 ^ bitLength n ≤ 2 ^ 53 := Nat.pow_le_pow_right (by norm_num) (by omega)
      omega
    have hsplit : 2 ^ bitLength n = 2 ^ 53 * 2 ^ (bitLength n - 53) := by
      rw [← pow_add]
      congr 1
      omega
    have hsplit' : 2 ^ (bitLength n - 1) = 2 ^ 52 * 2 ^ (bitLength n - 53) := by
      rw [← pow_add]
      congr 1
      omega
    have hqpos : 0 < 2 ^ (bitLength n - 53) := by positivity
    obtain ⟨hr1, hr2⟩ := roundHalfEven_bounds n (2 ^ (bitLength n - 53))
    obtain ⟨hn1, hn2⟩ := roundHalfEven_near n (2 ^ (bitLength n - 53)) hqpos
    have hdiv1 : n / 2 ^ (bitLength n - 53) < 2 ^ 53 := by
      rw [Nat.div_lt_iff_lt_mul hqpos, ← hsplit]
      exact hb1
    have hdiv2 : 2 ^ 52 ≤ n / 2 ^ (bitLength n - 53) := by
      rw [Nat.le_div_iff_mul_le hqpos, ← hsplit']
      exact hb2
    refine ⟨roundHalfEven n (2 ^ (bitLength n - 53)), bitLength n - 53, ?_, by omega,
      fun _ => by omega, hn1, hn2⟩
    unfold roundTo53
    rw [if_neg hlt]

theorem fmtFloat1_of_pow (b : Int) (k : Nat) (hb : 0 ≤ b) (hk1 : 1 ≤ k) (hk : k ≤ 6) :
    fmtFloat1 b (1024 ^ k)
      = toString (roundHalfEven (10 * roundTo53 b.toNat) (1024 ^ k) / 10) ++ "."
        ++ toString (roundHalfEven (10 * roundTo53 b.toNat) (1024 ^ k) % 10) := by
  have hq : float64Quotient (roundTo53 b.natAbs) (roundTo53 ((1024 : Int) ^ k).natAbs)
      = (roundTo53 b.toNat, 1024 ^ k) := by
    have hn : b.natAbs = b.toNat := by omega
    have hd : ((1024 : Int) ^ k).natAbs = 1024 ^ k := by simp [Int.natAbs_pow]
    have h1 : roundTo53 (1024 ^ k) = 1024 ^ k := by interval_cases k <;> decide
    have h2 : isPowerOfTwo (1024 ^ k) = true := by interval_cases k <;> decide
    rw [hn, hd, h1]
    unfold float64Quotient
    rw [if_pos h2]
  have hne : ((1024 : Int) ^ k) ≠ 0 := by positivity
  have hb' : decide (b < 0) = false := by simpa using hb
  have hd' : decide ((1024 : Int) ^ k < 0) = false := by
    have : (0 : Int) ≤ 1024 ^ k := by positivity
    simp [this]
  unfold fmtFloat1
  simp only [hne, if_false, hq, hb', hd']
  simp

/-- C17 as stated fails at `b = 9063494250083123`: the unit is PiB (`k = 5`),
`b / 1024^5` lies within less than 0.05 of 8.0, so that to one decimal place it
is 8.0, and `byteCountBinary` shows 8.1, because `float64(b)` is `b + 1`. -/
theorem byteCountBinary_not_nearest_decimal :
    (1024 : Int) ^ 5 ≤ 9063494250083123 ∧ (9063494250083123 : Int) < 1024 ^ 6 ∧
    2 * |10 * (9063494250083123 : Int) - 80 * 1024 ^ 5| < 1024 ^ 5 ∧
    roundTo53 9063494250083123 = 9063494250083124 ∧
    byteCountBinary fmtFloat1 9063494250083123 = some "8.1 PiB" := by
  refine ⟨by decide, by decide, by decide, by decide, ?_⟩
  obtain ⟨k, c, _, _, h1, h2, _, hc, hbcb, _⟩ :=
    (byteCountBinary_unit_index fmtFloat1 9063494250083123 (by decide)).2 (by decide)
  have hk : k = 5 := (pow1024_unique 9063494250083123 k 5 h1 h2 (by decide) (by decide)).symm
  subst hk
  have hc' : c = 'P' := by
    have : "KMGTPE".toList[5 - 1]? = some 'P' := by decide
    rw [this] at hc
    exact (Option.some.inj hc).symm
  subst hc'
  rw [hbcb, fmtFloat1_of_pow _ 5 (by decide) (by decide) (by decide)]
  decide

/-- C17 amended: a byte count `b` with `0 ≤ b < 1024` is rendered as its
decimal followed by ` B`.  A byte count `b ≥ 1024` of the `int64` range is
rendered with the unit of index `k` of `KMGTPE` (counted from 1), where `k` is
the one `k` with `1024^k ≤ b < 1024^(k+1)` and lies in 1..6, so that `b / 1024^k`
is at least 1 and below 1024; the number shown has one decimal and is
`float64(b) / 1024^k` rounded to the nearest tenth, ties to even.  Here
`float64(b)` is `b` itself below `2^53` and otherwise `b` rounded to a
significand `m` of at most 53 bits, `m * 2^e` within half of `2^e` of `b`. -/
theorem byteCountBinary_rendering (b : Int) (hhi : b < 2 ^ 63) :
    (0 ≤ b → b < 1024 → byteCountBinary fmtFloat1 b = some (toString b ++ " B")) ∧
    (1024 ≤ b →
      ∃ (k : Nat) (c : Char) (tenths : Nat), 1 ≤ k ∧ k ≤ 6 ∧
        (1024 : Int) ^ k ≤ b ∧ b < 1024 ^ (k + 1) ∧
        (∀ k' : Nat, (1024 : Int) ^ k' ≤ b → b < 1024 ^ (k' + 1) → k' = k) ∧
        "KMGTPE".toList[k - 1]? = some c ∧
        byteCountBinary fmtFloat1 b
          = some (toString (tenths / 10) ++ "." ++ toString (tenths % 10) ++ " "
              ++ String.singleton c ++ "iB") ∧
        tenths = roundHalfEven (10 * roundTo53 b.toNat) (1024 ^ k) ∧
        2 * (tenths * 1024 ^ k) ≤ 2 * (10 * roundTo53 b.toNat) + 1024 ^ k ∧
        2 * (10 * roundTo53 b.toNat) ≤ 2 * (tenths * 1024 ^ k) + 1024 ^ k ∧
        (b < 2 ^ 53 → roundTo53 b.toNat = b.toNat) ∧
        (∃ (m e : Nat), roundTo53 b.toNat = m * 2 ^ e ∧ m ≤ 2 ^ 53 ∧ (e ≠ 0 → 2 ^ 52 ≤ m) ∧
          2 * (m * 2 ^ e) ≤ 2 * b.toNat + 2 ^ e ∧ 2 * b.toNat ≤ 2 * (m * 2 ^ e) + 2 ^ e) ∧
        (1 : ℚ) ≤ (b : ℚ) / 1024 ^ k ∧ (b : ℚ) / 1024 ^ k < 1024) := by
  obtain ⟨hplain, hscaled⟩ := byteCountBinary_unit_index fmtFloat1 b hhi
  refine ⟨hplain, fun hge => ?_⟩
  obtain ⟨k, c, hk1, hk6, h1, h2, huniq, hc, hbcb, hq1, hq2⟩ := hscaled hge
  obtain ⟨hn1, hn2⟩ := roundHalfEven_near (10 * roundTo53 b.toNat) (1024 ^ k) (by positivity)
  refine ⟨k, c, _, hk1, hk6, h1, h2, huniq, hc, ?_, rfl, hn1, hn2, ?_, roundTo53_spec b.toNat,
    hq1, hq2⟩
  · rw [hbcb, fmtFloat1_of_pow b k (by omega) hk1 hk6]
  · intro hlt
    unfold roundTo53
    rw [if_pos (by omega)]

/-- The amended C17 at 1536 bytes, shown as `1.5 KiB`, and at 1280 bytes, whose
scaled value 1.25 is a tie and is shown as `1.2 KiB`. -/
theorem byteCountBinary_rendering_witness :
    (1536 : Int) < 2 ^ 63 ∧ (1024 : Int) ≤ 1536 ∧
    byteCountBinary fmtFloat1 1536 = some "1.5 KiB" ∧
    byteCountBinary fmtFloat1 1280 = some "1.2 KiB" := by
  refine ⟨by decide, by decide, ?_, ?_⟩
  · obtain ⟨k, c, tenths, _, _, h1, h2, _, hc, hbcb, ht, _⟩ :=
      (byteCountBinary_rendering 1536 (by decide)).2 (by decide)
    have hk : k = 1 := (pow1024_unique 1536 k 1 h1 h2 (by decide) (by decide)).symm
    subst hk
    have hc' : c = 'K' := by
      have : "KMGTPE".toList[1 - 1]? = some 'K' := by decide
      rw [this] at hc
      exact (Option.some.inj hc).symm
    have ht' : tenths = 15 := by rw [ht]; decide
    subst hc' ht'
    rw [hbcb]
    decide
  · obtain ⟨k, c, tenths, _, _, h1, h2, _, hc, hbcb, ht, _⟩ :=
      (byteCountBinary_rendering 1280 (by decide)).2 (by decide)
    have hk : k = 1 := (pow1024_unique 1280 k 1 h1 h2 (by decide) (by decide)).symm
    subst hk
    have hc' : c = 'K' := by
      have : "KMGTPE".toList[1 - 1]? = some 'K' := by decide
      rw [this] at hc
      exact (Option.some.inj hc).symm
    have ht' : tenths = 12 := by rw [ht]; decide
    subst hc' ht'
    rw [hbcb]
    decide

/-- C19, `byteCountBinary` is total and safe on every `int64`: the scaling
loop is the total function `scaleLoop`, and for every `b` below `2^63`,
negative values included, `byteCountBinary` returns a string; a
negative `b` is rendered by the plain ` B` branch; and for `b ≥ 1024` the
scaling loop ends with `exp` at most 5, so that `"KMGTPE"[exp]` is in range, and
with `div` equal to `1024^(exp+1)`, at most `1024^6` and below `2^63`, so that
no multiplication overflowed. -/
theorem byteCountBinary_safe (fmtF : FloatFmt) (b : Int) (hhi : b < 2 ^ 63) :
    (∃ s, byteCountBinary fmtF b = some s) ∧
    (b < 0 → byteCountBinary fmtF b = some (toString b ++ " B")) ∧
    (1024 ≤ b →
      (scaleLoop (Int.tdiv b 1024) 1024 0).2 ≤ 5 ∧
      (∃ c, "KMGTPE".toList[(scaleLoop (Int.tdiv b 1024) 1024 0).2]? = some c) ∧
      (scaleLoop (Int.tdiv b 1024) 1024 0).1
        = 1024 ^ ((scaleLoop (Int.tdiv b 1024) 1024 0).2 + 1) ∧
      (scaleLoop (Int.tdiv b 1024) 1024 0).1 ≤ 1024 ^ 6 ∧
      (scaleLoop (Int.tdiv b 1024) 1024 0).1 < 2 ^ 63) := by
  have hplain : b < 1024 → byteCountBinary fmtF b = some (toString b ++ " B") := by
    intro hlt
    unfold byteCountBinary
    rw [if_pos hlt]
  have hscaled : 1024 ≤ b →
      (scaleLoop (Int.tdiv b 1024) 1024 0).2 ≤ 5 ∧
      (∃ c, "KMGTPE".toList[(scaleLoop (Int.tdiv b 1024) 1024 0).2]? = some c) ∧
      (scaleLoop (Int.tdiv b 1024) 1024 0).1
        = 1024 ^ ((scaleLoop (Int.tdiv b 1024) 1024 0).2 + 1) ∧
      (scaleLoop (Int.tdiv b 1024) 1024 0).1 ≤ 1024 ^ 6 ∧
      (scaleLoop (Int.tdiv b 1024) 1024 0).1 < 2 ^ 63 := by
    intro hge
    obtain ⟨h5, hdiv, _, _⟩ := scaleLoop_int64 b hge hhi
    have hb : (scaleLoop (Int.tdiv b 1024) 1024 0).1 ≤ 1024 ^ 6 := by
      rw [hdiv]
      exact pow1024_le _ (by omega)
    refine ⟨h5, units_getElem _ h5, hdiv, hb, ?_⟩
    have : (1024 : Int) ^ 6 < 2 ^ 63 := by norm_num
    omega
  refine ⟨?_, fun hneg => hplain (by omega), hscaled⟩
  by_cases hlt : b < 1024
  · exact ⟨_, hplain hlt⟩
  · obtain ⟨_, ⟨c, hc⟩, _⟩ := hscaled (by omega)
    exact ⟨_, byteCountBinary_of_ge fmtF b (by omega) c hc⟩

/-- Safety at the largest `int64`. -/
theorem byteCountBinary_safe_witness :
    (9223372036854775807 : Int) < 2 ^ 63 ∧
    (∃ s, byteCountBinary fmtFloat1 9223372036854775807 = some s) ∧
    (scaleLoop (Int.tdiv 9223372036854775807 1024) 1024 0).2 ≤ 5 :=
  ⟨by decide, (byteCountBinary_safe fmtFloat1 9223372036854775807 (by decide)).1,
    ((byteCountBinary_safe fmtFloat1 9223372036854775807 (by decide)).2.2 (by decide)).1⟩

end Storage
